import Mathlib

/-!
Verification of the line-alignment, intra-line-diff and row-formatting engine
of the sync-manager repository.

The engine lives in two Rust files:
  * src/operations/diff.rs   — line alignment (align_lines) and word-level
    diffs (compute_word_diff_source / compute_word_diff_dest);
  * src/ui/side_by_side.rs   — the row formatter (render_side_by_side,
    build_aligned_lines, add_* helpers, create_highlighted_lines and the
    fold / blank / indicator row constructors).

Modelling conventions:
  * a text line is a `List Char` (Rust `String` / `&str`, compared at char
    granularity; every byte-level operation the code performs — starts_with,
    slicing at a prefix boundary — coincides with the char-level one);
  * Rust `usize` arithmetic is modelled by `Nat`; `Nat` subtraction is
    truncating, which agrees with every `saturating_sub` in the source, and
    is used at the raw `-` sites only where the Rust value provably does not
    underflow (noted inline);
  * terminal styles are abstracted to the data the engine computes: each
    span carries its `is_changed` flag, and the gutter / padding / margin
    spans are kept structurally;
  * the one loop of the engine that can diverge (the character-split loop of
    create_highlighted_lines) is given explicit fuel, so every formatter
    entry point returns an `Option`; `none` means the Rust loop would not
    have terminated (or the iteration bound was not reached).
-/

set_option linter.unusedVariables false

namespace SyncManager

/-- Rust `char::is_whitespace`: the Unicode White_Space property, written out
as the explicit list of code points. -/
def rust_is_whitespace (c : Char) : Bool :=
  let n := c.toNat
  (0x09 ≤ n && n ≤ 0x0D) || n == 0x20 || n == 0x85 || n == 0xA0 ||
  n == 0x1680 || (0x2000 ≤ n && n ≤ 0x200A) || n == 0x2028 || n == 0x2029 ||
  n == 0x202F || n == 0x205F || n == 0x3000

/-- Rust `str::trim`: drop leading and trailing whitespace. -/
def trim (l : List Char) : List Char :=
  ((l.dropWhile rust_is_whitespace).reverse.dropWhile rust_is_whitespace).reverse

/-- diff.rs `normalize_line_for_comparison`: a whitespace-only line compares
as empty, every other line compares literally. -/
def normalize_line_for_comparison (line : List Char) : List Char :=
  if trim line = [] then [] else line

/-- Rust `str::split_whitespace` (tokens between whitespace runs, no empties),
written with an explicit word accumulator. -/
def split_whitespace_go : List Char → List Char → List (List Char)
  | [], acc => if acc = [] then [] else [acc.reverse]
  | c :: rest, acc =>
    if rust_is_whitespace c then
      if acc = [] then split_whitespace_go rest []
      else acc.reverse :: split_whitespace_go rest []
    else split_whitespace_go rest (c :: acc)

def split_whitespace (l : List Char) : List (List Char) :=
  split_whitespace_go l []

/-- First-occurrence deduplication; models the passage of a word list into a
Rust `HashSet` (only cardinalities of the resulting sets are ever used). -/
def dedup_keep_first_go : List (List Char) → List (List Char) → List (List Char)
  | _, [] => []
  | seen, a :: l =>
    if a ∈ seen then dedup_keep_first_go seen l
    else a :: dedup_keep_first_go (a :: seen) l

def dedup_keep_first (l : List (List Char)) : List (List Char) :=
  dedup_keep_first_go [] l

/-- The whitespace-token set of a (normalized) line: what `lines_are_similar`
pours into its `HashSet` (first occurrences stand for the set; only
cardinalities are used). -/
def word_set (l : List Char) : List (List Char) :=
  dedup_keep_first (split_whitespace (normalize_line_for_comparison l))

/-- `words1.intersection(&words2).count()` of `lines_are_similar`. -/
def jaccard_inter (line1 line2 : List Char) : Nat :=
  ((word_set line1).filter (fun w => w ∈ word_set line2)).length

/-- `words1.union(&words2).count()` of `lines_are_similar`. -/
def jaccard_union (line1 line2 : List Char) : Nat :=
  (dedup_keep_first (word_set line1 ++ word_set line2)).length

/-- diff.rs `lines_are_similar`. The Rust code compares
`intersection as f64 / union as f64 > 0.3`; for every set size arising from a
word count (far below 2^50) that f64 comparison holds exactly when
`10 * intersection > 3 * union` over the integers, which is how it is stated
here. -/
def lines_are_similar (line1 line2 : List Char) : Bool :=
  let norm1 := normalize_line_for_comparison line1
  let norm2 := normalize_line_for_comparison line2
  if norm1 = [] ∧ norm2 = [] then true
  else if norm1 = [] ∨ norm2 = [] then false
  else
    let inter := jaccard_inter line1 line2
    let uni := jaccard_union line1 line2
    if uni = 0 then false
    else decide (10 * inter > 3 * uni)

/-- Rust `str::split_inclusive(char::is_whitespace)` as used by the word
diffs: each piece ends with the whitespace char it was split at; the final
piece may lack one; no empty pieces. -/
def split_inclusive_go : List Char → List Char → List (List Char)
  | [], acc => if acc = [] then [] else [acc.reverse]
  | c :: rest, acc =>
    if rust_is_whitespace c then (acc.reverse ++ [c]) :: split_inclusive_go rest []
    else split_inclusive_go rest (c :: acc)

def split_inclusive_ws (l : List Char) : List (List Char) :=
  split_inclusive_go l []

/-- Length of the longest common token run from the front: the
`for i in 0..min_len { if w1[i]==w2[i] {prefix_len=i+1} else {break} }`
loops of both word-diff functions. -/
def common_pfx_len : List (List Char) → List (List Char) → Nat
  | a :: as', b :: bs => if a = b then common_pfx_len as' bs + 1 else 0
  | _, _ => 0

/-- The common-suffix loop of both word-diff functions: `i` counts up to
`max_sfx` (given here as a countdown `rem`), the word indices are
`len - 1 - i` on each side, and the count stops at the first mismatch or when
an index would dip below `p` (the prefix length). -/
def sfx_go (lw ow : List (List Char)) (p : Nat) : Nat → Nat → Nat
  | _, 0 => 0
  | i, rem + 1 =>
    let li := lw.length - 1 - i
    let oi := ow.length - 1 - i
    if p ≤ li ∧ p ≤ oi ∧ lw.getD li [] = ow.getD oi [] then
      1 + sfx_go lw ow p (i + 1) rem
    else 0

/-- diff.rs `compute_word_diff_source`. The raw `usize` subtractions of the
Rust code (`min_len - prefix_len` and friends) cannot underflow because
`prefix_len ≤ min_len`; `Nat` subtraction agrees there. -/
def compute_word_diff_source (line other : List Char) : List (List Char × Bool) :=
  if normalize_line_for_comparison line = normalize_line_for_comparison other then
    [(line, false)]
  else if line.isPrefixOf other then
    -- other.starts_with(line): source is a prefix of destination
    [(line, false)]
  else
    let line_words := split_inclusive_ws line
    let other_words := split_inclusive_ws other
    let prefix_len := common_pfx_len line_words other_words
    let min_len := min line_words.length other_words.length
    let max_suffix :=
      min (min_len - prefix_len)
        (min (line_words.length - prefix_len) (other_words.length - prefix_len))
    let suffix_len := sfx_go line_words other_words prefix_len 0 max_suffix
    (if prefix_len > 0 then [((line_words.take prefix_len).flatten, false)] else []) ++
    (if prefix_len < line_words.length - suffix_len then
      [(((line_words.take (line_words.length - suffix_len)).drop prefix_len).flatten, true)]
     else []) ++
    (if suffix_len > 0 then
      [((line_words.drop (line_words.length - suffix_len)).flatten, false)]
     else [])

/-- diff.rs `compute_word_diff_dest`. -/
def compute_word_diff_dest (line other : List Char) : List (List Char × Bool) :=
  if normalize_line_for_comparison line = normalize_line_for_comparison other then
    [(line, false)]
  else if other.isPrefixOf line ∧ line.drop other.length ≠ [] then
    -- line.starts_with(other) with a non-empty remainder: highlight only the
    -- added tail (dropping other.length bytes equals dropping its chars,
    -- since other is a prefix of line)
    [(other, false), (line.drop other.length, true)]
  else
    let line_words := split_inclusive_ws line
    let other_words := split_inclusive_ws other
    let prefix_len := common_pfx_len line_words other_words
    let min_len := min line_words.length other_words.length
    let max_suffix :=
      min (min_len - prefix_len)
        (min (line_words.length - prefix_len) (other_words.length - prefix_len))
    let suffix_len := sfx_go line_words other_words prefix_len 0 max_suffix
    (if prefix_len > 0 then [((line_words.take prefix_len).flatten, false)] else []) ++
    (if prefix_len < line_words.length - suffix_len then
      [(((line_words.take (line_words.length - suffix_len)).drop prefix_len).flatten, true)]
     else []) ++
    (if suffix_len > 0 then
      [((line_words.drop (line_words.length - suffix_len)).flatten, false)]
     else [])

/-! ## Line alignment (diff.rs `align_lines`) -/

/-- diff.rs `LineAlignment`: `Both` pairs a source and a destination line,
`SourceOnly` / `DestOnly` are one-sided. -/
inductive LineAlignment where
  | Both (src_idx dst_idx : Nat)
  | SourceOnly (src_idx : Nat)
  | DestOnly (dst_idx : Nat)
deriving DecidableEq, Repr

/-- STEP 1 of `align_lines`: indices inside the shared prefix length where
both lines are normalized-empty are forced matches. The Rust code collects
them in a `HashSet` and then sorts; since the pairs are `(i, i)`, the sorted
list is this ascending one. -/
def forced_matches (source dest : List (List Char)) : List (Nat × Nat) :=
  (List.range (min source.length dest.length)).filterMap (fun idx =>
    if normalize_line_for_comparison (source.getD idx []) = [] ∧
        normalize_line_for_comparison (dest.getD idx []) = [] then
      some (idx, idx)
    else none)

/-- The match condition of the DP fill (1-based `i`, `j` into the remaining
lists, which carry their original indices): equal normalizations match —
except blank lines, which only match at equal original positions — and
non-equal lines match when `lines_are_similar`. -/
def align_match_cond (rs ds : List (Nat × List Char)) (i j : Nat) : Bool :=
  let sp := rs.getD (i - 1) (0, [])
  let dq := ds.getD (j - 1) (0, [])
  let src_norm := normalize_line_for_comparison sp.2
  let dest_norm := normalize_line_for_comparison dq.2
  if src_norm = dest_norm then
    if src_norm = [] then sp.1 = dq.1 else true
  else lines_are_similar sp.2 dq.2

/-- One DP row beyond column 0: cell `j` is `prev[j-1] + 1` on a match and
`max prev[j] left` otherwise (`left` is the cell just written). `rem` counts
the columns still to fill. -/
def dp_row_go (mc : Nat → Bool) (prev : List Nat) : Nat → Nat → Nat → List Nat
  | _, 0, _ => []
  | j, rem + 1, left =>
    let v := if mc j then prev.getD (j - 1) 0 + 1 else max (prev.getD j 0) left
    v :: dp_row_go mc prev (j + 1) rem v

/-- Rows `i .. i + rem - 1` of the DP table, each prefixed with its zero
column, built from the previous row. -/
def dp_tab_go (mc : Nat → Nat → Bool) (rm : Nat) : List Nat → Nat → Nat → List (List Nat)
  | _, _, 0 => []
  | prev, i, rem + 1 =>
    let r := 0 :: dp_row_go (mc i) prev 1 rm 0
    r :: dp_tab_go mc rm r (i + 1) rem

/-- The `(rn+1) × (rm+1)` DP table of `align_lines`, row 0 and column 0 zero. -/
def dp_table (mc : Nat → Nat → Bool) (rn rm : Nat) : List (List Nat) :=
  let r0 := List.replicate (rm + 1) 0
  r0 :: dp_tab_go mc rm r0 1 rn

/-- Table lookup `dp[i][j]`. All lookups performed by the code are in range. -/
def dp_get (tab : List (List Nat)) (i j : Nat) : Nat :=
  (tab.getD i []).getD j 0

/-- Backtrack entries over the remaining-index space. The Rust code encodes
these as `(usize, usize, bool)` triples with `usize::MAX` as the absent-side
sentinel; the three shapes are exactly these constructors. -/
inductive RemAlign where
  | both (i j : Nat)
  | src (i : Nat)
  | dst (j : Nat)
deriving DecidableEq, Repr

/-- The backtrack loop of `align_lines` (diff.rs lines 447–503), in push
order (the Rust code reverses afterwards). `fuel` bounds the iterations;
every iteration decreases `i + j` by at least one, so `fuel = i + j` replays
the loop exactly. -/
def backtrack_go (rs ds : List (Nat × List Char)) (tab : List (List Nat)) :
    Nat → Nat → Nat → List RemAlign
  | 0, _, _ => []
  | fuel + 1, i, j =>
    if i > 0 ∧ j > 0 then
      let sp := rs.getD (i - 1) (0, [])
      let dq := ds.getD (j - 1) (0, [])
      let src_norm := normalize_line_for_comparison sp.2
      let dest_norm := normalize_line_for_comparison dq.2
      if src_norm = dest_norm then
        let should_match_blank := if src_norm = [] then sp.1 = dq.1 else True
        if should_match_blank ∧ dp_get tab i j = dp_get tab (i - 1) (j - 1) + 1 then
          RemAlign.both (i - 1) (j - 1) :: backtrack_go rs ds tab fuel (i - 1) (j - 1)
        else
          if dp_get tab (i - 1) j ≥ dp_get tab i (j - 1) then
            RemAlign.src (i - 1) :: backtrack_go rs ds tab fuel (i - 1) j
          else
            RemAlign.dst (j - 1) :: backtrack_go rs ds tab fuel i (j - 1)
      else
        let are_similar := lines_are_similar sp.2 dq.2
        if are_similar ∧ dp_get tab i j = dp_get tab (i - 1) (j - 1) + 1 then
          RemAlign.both (i - 1) (j - 1) :: backtrack_go rs ds tab fuel (i - 1) (j - 1)
        else if dp_get tab (i - 1) j > dp_get tab i (j - 1) then
          RemAlign.src (i - 1) :: backtrack_go rs ds tab fuel (i - 1) j
        else if dp_get tab i (j - 1) > dp_get tab (i - 1) j then
          RemAlign.dst (j - 1) :: backtrack_go rs ds tab fuel i (j - 1)
        else
          -- tie: consume from source
          RemAlign.src (i - 1) :: backtrack_go rs ds tab fuel (i - 1) j
    else if i > 0 then
      RemAlign.src (i - 1) :: backtrack_go rs ds tab fuel (i - 1) j
    else if j > 0 then
      RemAlign.dst (j - 1) :: backtrack_go rs ds tab fuel i (j - 1)
    else []

/-- Convert a backtrack entry back to original indices via the remaining
lists (diff.rs lines 508–520). -/
def rem_to_orig (rs ds : List (Nat × List Char)) : RemAlign → LineAlignment
  | RemAlign.both ri rj => LineAlignment.Both (rs.getD ri (0, [])).1 (ds.getD rj (0, [])).1
  | RemAlign.src ri => LineAlignment.SourceOnly (rs.getD ri (0, [])).1
  | RemAlign.dst rj => LineAlignment.DestOnly (ds.getD rj (0, [])).1

/-- Index of the first element satisfying `p` (the inner
`for j in 0..len` scans of STEP 6). -/
def find_first_idx (p : LineAlignment → Bool) : List LineAlignment → Option Nat
  | [] => none
  | a :: l => if p a then some 0 else (find_first_idx p l).map (· + 1)

/-- One outer iteration of the STEP 6 post-processing: if entry `i` is
`SourceOnly s`, the scan converts the first `Both` whose source index is
`s + 1` and whose source line is blank into `SourceOnly (s + 1)` (the inner
Rust loop only breaks after converting, and there is at most one `Both` per
source index); symmetrically for `DestOnly`. Note the conversion drops the
other side's index from the list. -/
def step6_convert (source dest : List (List Char)) (l : List LineAlignment) (i : Nat) :
    List LineAlignment :=
  match l.get? i with
  | some (LineAlignment.SourceOnly src_idx) =>
    match find_first_idx (fun e =>
        match e with
        | LineAlignment.Both s _ =>
          s == src_idx + 1 &&
            normalize_line_for_comparison (source.getD (src_idx + 1) []) == []
        | _ => false) l with
    | some jj => l.set jj (LineAlignment.SourceOnly (src_idx + 1))
    | none => l
  | some (LineAlignment.DestOnly dest_idx) =>
    match find_first_idx (fun e =>
        match e with
        | LineAlignment.Both _ d =>
          d == dest_idx + 1 &&
            normalize_line_for_comparison (dest.getD (dest_idx + 1) []) == []
        | _ => false) l with
    | some jj => l.set jj (LineAlignment.DestOnly (dest_idx + 1))
    | none => l
  | _ => l

/-- STEP 6 of `align_lines`: the outer `for i in 0..len` loop (the list
length never changes, so ranging over the initial length is exact). -/
def step6 (source dest : List (List Char)) (l : List LineAlignment) : List LineAlignment :=
  (List.range l.length).foldl (step6_convert source dest) l

def usize_max : Nat := 2 ^ 64 - 1

/-- STEP 7 sort key: source index, with `DestOnly` keyed `usize::MAX`. -/
def align_sort_key : LineAlignment → Nat
  | LineAlignment.Both s _ => s
  | LineAlignment.SourceOnly s => s
  | LineAlignment.DestOnly _ => usize_max

/-- STEPS 1–5 of `align_lines`: the forced matches followed by the
backtracked LCS entries (or, when one side has nothing left, the one-sided
leftovers), before the STEP 6 post-processing and the STEP 7 sort. -/
def remaining_src (source dest : List (List Char)) : List (Nat × List Char) :=
  source.enum.filter (fun p => p.1 ∉ (forced_matches source dest).map Prod.fst)

def remaining_dest (source dest : List (List Char)) : List (Nat × List Char) :=
  dest.enum.filter (fun p => p.1 ∉ (forced_matches source dest).map Prod.snd)

/-- The reversed backtrack trace of the LCS DP over the remaining lines. -/
def lcs_rem (source dest : List (List Char)) : List RemAlign :=
  let rs := remaining_src source dest
  let ds := remaining_dest source dest
  (backtrack_go rs ds (dp_table (align_match_cond rs ds) rs.length ds.length)
    (rs.length + ds.length) rs.length ds.length).reverse

def align_raw (source dest : List (List Char)) : List LineAlignment :=
  let aligned0 := (forced_matches source dest).map (fun p => LineAlignment.Both p.1 p.2)
  if remaining_src source dest ≠ [] ∧ remaining_dest source dest ≠ [] then
    aligned0 ++ (lcs_rem source dest).map
      (rem_to_orig (remaining_src source dest) (remaining_dest source dest))
  else
    aligned0 ++ (remaining_src source dest).map (fun p => LineAlignment.SourceOnly p.1)
      ++ (remaining_dest source dest).map (fun p => LineAlignment.DestOnly p.1)

/-- diff.rs `align_lines`. Rust's `sort_by` is a stable sort; insertion sort
on `key a ≤ key b` is stable, hence produces the identical list. -/
def align_lines (source dest : List (List Char)) : List LineAlignment :=
  List.insertionSort (fun a b => align_sort_key a ≤ align_sort_key b)
    (step6 source dest (align_raw source dest))

/-! ## Row formatter (ui/side_by_side.rs) -/

/-- A physical terminal row. side_by_side.rs builds each row as a flat span
list `gutter ++ content spans ++ padding ++ one-space right margin`; the
structured form here keeps the gutter, the content spans (with their
`is_changed` flags) and the padding width, which determines that flat list.
`blank` is `create_blank_line` (all-space gutter, `text_width` spaces,
margin); `fold_marker` is the `create_fold_indicator` row. -/
inductive Row where
  | content (gutter : List Char) (spans : List (List Char × Bool)) (pad : Nat)
  | blank (gutter_width text_width : Nat)
  | fold_marker (hidden_count text_width gutter_width : Nat)
deriving DecidableEq, Repr

def create_blank_line (text_width gutter_width : Nat) : Row :=
  Row.blank gutter_width text_width

def create_fold_indicator (hidden_count text_width gutter_width : Nat) : Row :=
  Row.fold_marker hidden_count text_width gutter_width

/-- Rust `format!("{:width$} ", line_num, width = max_line_digits)`:
the line number right-aligned in `max_line_digits` columns (never truncated),
followed by one space. -/
def format_gutter (line_num max_line_digits : Nat) : List Char :=
  let digits := Nat.toDigits 10 line_num
  List.replicate (max_line_digits - digits.length) ' ' ++ digits ++ [' ']

/-- side_by_side.rs `split_into_word_units`: words with their trailing
whitespace attached; runs of whitespace not preceded by a word form their own
unit. `cur` is the pending unit in reverse, `in_word` the loop flag. -/
def split_into_word_units_go : List Char → List Char → Bool → List (List Char)
  | [], cur, _ => if cur = [] then [] else [cur.reverse]
  | c :: rest, cur, in_word =>
    if rust_is_whitespace c then
      if in_word then (c :: cur).reverse :: split_into_word_units_go rest [] false
      else split_into_word_units_go rest (c :: cur) false
    else
      if ¬ in_word ∧ cur ≠ [] then
        cur.reverse :: split_into_word_units_go rest [c] true
      else split_into_word_units_go rest (c :: cur) true

def split_into_word_units (l : List Char) : List (List Char) :=
  split_into_word_units_go l [] false

/-- The mutable accumulator of `create_highlighted_lines`: finished rows,
the current row's spans, their width, and the first-row flag. -/
structure CHLState where
  lines : List Row
  cur : List (List Char × Bool)
  cur_width : Nat
  is_first : Bool
deriving DecidableEq, Repr

/-- The row-flush block that `create_highlighted_lines` repeats three times:
choose gutter by `is_first`, compute the content width, pad to `text_width`
(saturating), append the margin, push the row and reset the accumulator. -/
def flush_row (text_width : Nat) (gutter cont_gutter : List Char) (st : CHLState) : CHLState :=
  let g := if st.is_first then gutter else cont_gutter
  let line_content_width := (st.cur.map (fun s => s.1.length)).sum
  let padding_len := text_width - line_content_width
  { lines := st.lines ++ [Row.content g st.cur padding_len],
    cur := [], cur_width := 0, is_first := false }

/-- The hard-split loop of `create_highlighted_lines` (a unit wider than the
line is broken at exact character boundaries). Each Rust iteration either
flushes a full row (`remaining == 0`, without advancing `char_idx`) or
consumes `take_count ≥ 1` characters; with `text_width = 0` and a non-empty
unit it therefore never terminates, which the model reports as `none` for
every fuel. With `text_width ≥ 1`, `2 * |unit| + 2` fuel replays the loop to
completion. -/
def char_split_go (text_width : Nat) (changed : Bool) (gutter cont_gutter : List Char)
    (chars : List Char) : Nat → Nat → CHLState → Option CHLState
  | 0, char_idx, st => if char_idx < chars.length then none else some st
  | fuel + 1, char_idx, st =>
    if char_idx < chars.length then
      let remaining := text_width - st.cur_width
      if remaining = 0 then
        char_split_go text_width changed gutter cont_gutter chars fuel char_idx
          (flush_row text_width gutter cont_gutter st)
      else
        let take_count := min remaining (chars.length - char_idx)
        let seg := (chars.drop char_idx).take take_count
        char_split_go text_width changed gutter cont_gutter chars fuel (char_idx + take_count)
          { st with cur := st.cur ++ [(seg, changed)], cur_width := st.cur_width + take_count }
    else some st

/-- Per-unit body of `create_highlighted_lines`: wrap the current row if the
unit does not fit on a non-empty row, then either hard-split a unit wider
than an empty row, or append it. -/
def process_unit (text_width : Nat) (gutter cont_gutter : List Char) (changed : Bool)
    (unit : List Char) (st : CHLState) : Option CHLState :=
  let unit_width := unit.length
  let remaining_width := text_width - st.cur_width
  let st1 :=
    if unit_width > remaining_width ∧ st.cur ≠ [] then
      flush_row text_width gutter cont_gutter st
    else st
  let remaining_width2 := text_width - st1.cur_width
  if unit_width > remaining_width2 ∧ st1.cur = [] then
    char_split_go text_width changed gutter cont_gutter unit (2 * unit.length + 2) 0 st1
  else
    some { st1 with cur := st1.cur ++ [(unit, changed)], cur_width := st1.cur_width + unit_width }

/-- side_by_side.rs `create_highlighted_lines`. The two styles of the Rust
signature are abstracted into the per-span `is_changed` flag; note the code
builds `continuation_gutter` identical to `gutter`, so continuation rows
repeat the line number. `gutter_width` is, as in the source, unused. -/
def create_highlighted_lines (line_num : Nat) (diffs : List (List Char × Bool))
    (text_width gutter_width max_line_digits : Nat) : Option (List Row) :=
  let gutter := format_gutter line_num max_line_digits
  let cont_gutter := format_gutter line_num max_line_digits
  (diffs.foldlM (fun st (d : List Char × Bool) =>
      (split_into_word_units d.1).foldlM
        (fun st unit => process_unit text_width gutter cont_gutter d.2 unit st) st)
    { lines := [], cur := [], cur_width := 0, is_first := true }).map fun st =>
    let st := if st.cur ≠ [] then flush_row text_width gutter cont_gutter st else st
    if st.lines = [] then [Row.content gutter [] text_width] else st.lines

/-- side_by_side.rs `add_unchanged_line`: wrap both sides, then pad the
shorter side with blank rows until the counts match. -/
def add_unchanged_line (src_idx dest_idx : Nat) (source_lines dest_lines : List (List Char))
    (text_width gutter_width max_line_digits : Nat) (sv dv : List Row) :
    Option (List Row × List Row) :=
  let src_line := source_lines.getD src_idx []
  let dest_line := dest_lines.getD dest_idx []
  (create_highlighted_lines (src_idx + 1) [(src_line, false)]
      text_width gutter_width max_line_digits).bind fun src_wrapped =>
  (create_highlighted_lines (dest_idx + 1) [(dest_line, false)]
      text_width gutter_width max_line_digits).bind fun dest_wrapped =>
  let sv := sv ++ src_wrapped
  let dv := dv ++ dest_wrapped
  let src_count := src_wrapped.length
  let dest_count := dest_wrapped.length
  if src_count > dest_count then
    some (sv, dv ++ List.replicate (src_count - dest_count)
      (create_blank_line text_width gutter_width))
  else if dest_count > src_count then
    some (sv ++ List.replicate (dest_count - src_count)
      (create_blank_line text_width gutter_width), dv)
  else some (sv, dv)

/-- side_by_side.rs `add_modified_line`: word-level diffs on both sides, then
the same count-equalizing padding. -/
def add_modified_line (src_idx dest_idx : Nat) (source_lines dest_lines : List (List Char))
    (text_width gutter_width max_line_digits : Nat) (sv dv : List Row) :
    Option (List Row × List Row) :=
  let src_line := source_lines.getD src_idx []
  let dest_line := dest_lines.getD dest_idx []
  let src_diffs := compute_word_diff_source src_line dest_line
  let dest_diffs := compute_word_diff_dest dest_line src_line
  (create_highlighted_lines (src_idx + 1) src_diffs
      text_width gutter_width max_line_digits).bind fun src_wrapped =>
  (create_highlighted_lines (dest_idx + 1) dest_diffs
      text_width gutter_width max_line_digits).bind fun dest_wrapped =>
  let sv := sv ++ src_wrapped
  let dv := dv ++ dest_wrapped
  let src_count := src_wrapped.length
  let dest_count := dest_wrapped.length
  if src_count > dest_count then
    some (sv, dv ++ List.replicate (src_count - dest_count)
      (create_blank_line text_width gutter_width))
  else if dest_count > src_count then
    some (sv ++ List.replicate (dest_count - src_count)
      (create_blank_line text_width gutter_width), dv)
  else some (sv, dv)

/-- side_by_side.rs `add_source_only_line`: the source line rendered as fully
changed, matched by blank destination rows; an optional trailing blank pair
is rendered below it the same way. -/
def add_source_only_line (src_idx : Nat) (source_lines : List (List Char))
    (text_width gutter_width max_line_digits : Nat)
    (next_blank_indices : Option (Nat × Nat)) (sv dv : List Row) :
    Option (List Row × List Row) :=
  let src_line := source_lines.getD src_idx []
  (create_highlighted_lines (src_idx + 1) [(src_line, true)]
      text_width gutter_width max_line_digits).bind fun src_wrapped =>
  let sv := sv ++ src_wrapped
  let dv := dv ++ List.replicate src_wrapped.length (create_blank_line text_width gutter_width)
  match next_blank_indices with
  | some (next_src_idx, _next_dest_idx) =>
    let next_src_line := source_lines.getD next_src_idx []
    (create_highlighted_lines (next_src_idx + 1) [(next_src_line, true)]
        text_width gutter_width max_line_digits).bind fun blank_wrapped =>
    some (sv ++ blank_wrapped,
      dv ++ List.replicate blank_wrapped.length (create_blank_line text_width gutter_width))
  | none => some (sv, dv)

/-- side_by_side.rs `add_dest_only_line` (mirror image). -/
def add_dest_only_line (dest_idx : Nat) (dest_lines : List (List Char))
    (text_width gutter_width max_line_digits : Nat)
    (next_blank_indices : Option (Nat × Nat)) (sv dv : List Row) :
    Option (List Row × List Row) :=
  let dest_line := dest_lines.getD dest_idx []
  (create_highlighted_lines (dest_idx + 1) [(dest_line, true)]
      text_width gutter_width max_line_digits).bind fun dest_wrapped =>
  let dv := dv ++ dest_wrapped
  let sv := sv ++ List.replicate dest_wrapped.length (create_blank_line text_width gutter_width)
  match next_blank_indices with
  | some (_next_src_idx, next_dest_idx) =>
    let next_dest_line := dest_lines.getD next_dest_idx []
    (create_highlighted_lines (next_dest_idx + 1) [(next_dest_line, true)]
        text_width gutter_width max_line_digits).bind fun blank_wrapped =>
    some (sv ++ List.replicate blank_wrapped.length (create_blank_line text_width gutter_width),
      dv ++ blank_wrapped)
  | none => some (sv, dv)

/-- `build_aligned_lines`' local `has_changes` closure (its local
`normalize_for_comparison` has the same body as diff.rs's
`normalize_line_for_comparison`, which is reused here). -/
def has_changes (source_lines dest_lines : List (List Char)) : LineAlignment → Bool
  | LineAlignment.Both s d =>
    decide (normalize_line_for_comparison (source_lines.getD s []) ≠
      normalize_line_for_comparison (dest_lines.getD d []))
  | _ => true

/-- The run scan at the top of the fold check: the number of consecutive
unchanged `Both` ops starting at the current position. -/
def count_unchanged_from (source_lines dest_lines : List (List Char)) :
    List LineAlignment → Nat
  | [] => 0
  | a :: rest =>
    match a with
    | LineAlignment.Both s d =>
      if normalize_line_for_comparison (source_lines.getD s []) =
          normalize_line_for_comparison (dest_lines.getD d []) then
        1 + count_unchanged_from source_lines dest_lines rest
      else 0
    | _ => 0

def CONTEXT_LINES : Nat := 3

/-- The row-emitting part of the fold branch (side_by_side.rs lines 189–231):
up to `cb` context rows before, one shared fold-indicator row when anything
is hidden, up to `ca` context rows after, and the loop continues at
`i + uc`. -/
def emit_fold_run (aligned : List LineAlignment) (source_lines dest_lines : List (List Char))
    (text_width gutter_width max_line_digits : Nat) (i uc cb ca hidden : Nat)
    (sv dv : List Row) : Option (Nat × List Row × List Row) :=
  (List.range' i cb).foldlM
      (fun (p : List Row × List Row) k =>
        match aligned.getD k (LineAlignment.SourceOnly 0) with
        | LineAlignment.Both s d =>
          add_unchanged_line s d source_lines dest_lines
            text_width gutter_width max_line_digits p.1 p.2
        | _ => some p) (sv, dv) |>.bind fun p =>
    let p :=
      if hidden > 0 then
        (p.1 ++ [create_fold_indicator hidden text_width gutter_width],
         p.2 ++ [create_fold_indicator hidden text_width gutter_width])
      else p
    (List.range' (i + uc - ca) ca).foldlM
      (fun (p : List Row × List Row) k =>
        match aligned.getD k (LineAlignment.SourceOnly 0) with
        | LineAlignment.Both s d =>
          add_unchanged_line s d source_lines dest_lines
            text_width gutter_width max_line_digits p.1 p.2
        | _ => some p) p |>.bind fun p =>
    some (i + uc, p.1, p.2)

/-- One iteration of the `while i < aligned.len()` loop of
`build_aligned_lines`: the fold check (and possibly the whole fold branch),
otherwise the per-op match; returns the next `i` and the extended row
lists. -/
def process_one (aligned : List LineAlignment) (source_lines dest_lines : List (List Char))
    (text_width gutter_width max_line_digits : Nat) (fold_unchanged : Bool)
    (context_lines : Nat) (i : Nat) (sv dv : List Row) :
    Option (Nat × List Row × List Row) :=
  let fold_result : Option (Option (Nat × List Row × List Row)) :=
    if fold_unchanged then
      let unchanged_count := count_unchanged_from source_lines dest_lines (aligned.drop i)
      let has_change_before :=
        decide (i > 0) && has_changes source_lines dest_lines
          (aligned.getD (i - 1) (LineAlignment.SourceOnly 0))
      let has_change_after :=
        decide (i + unchanged_count < aligned.length) && has_changes source_lines dest_lines
          (aligned.getD (i + unchanged_count) (LineAlignment.SourceOnly 0))
      let min_lines_for_fold :=
        if has_change_before && has_change_after then context_lines * 2 + 1
        else if has_change_before || has_change_after then context_lines + 1
        else usize_max
      if unchanged_count > min_lines_for_fold then
        let context_before :=
          if has_change_before then min (context_lines) unchanged_count else 0
        let context_after :=
          if has_change_after then
            min (context_lines) (unchanged_count - context_before)
          else 0
        let hidden_count := unchanged_count - context_before - context_after
        some (emit_fold_run aligned source_lines dest_lines
          text_width gutter_width max_line_digits
          i unchanged_count context_before context_after hidden_count sv dv)
      else none
    else none
  match fold_result with
  | some r => r
  | none =>
    match aligned.get? i with
    | none => none
    | some (LineAlignment.Both src_idx dest_idx) =>
      let src_line := source_lines.getD src_idx []
      let dest_line := dest_lines.getD dest_idx []
      let src_normalized := trim src_line
      let dest_normalized := trim dest_line
      let is_same :=
        if src_normalized = [] ∧ dest_normalized = [] then true
        else decide (src_line = dest_line)
      if is_same then
        (add_unchanged_line src_idx dest_idx source_lines dest_lines
            text_width gutter_width max_line_digits sv dv).map fun p => (i + 1, p.1, p.2)
      else
        (add_modified_line src_idx dest_idx source_lines dest_lines
            text_width gutter_width max_line_digits sv dv).map fun p => (i + 1, p.1, p.2)
    | some (LineAlignment.SourceOnly src_idx) =>
      let nb : Option (Nat × Nat) :=
        match aligned.get? (i + 1) with
        | some (LineAlignment.Both ns nd) =>
          if normalize_line_for_comparison (source_lines.getD ns []) = [] ∧
              normalize_line_for_comparison (dest_lines.getD nd []) = [] then
            some (ns, nd)
          else none
        | _ => none
      (add_source_only_line src_idx source_lines text_width gutter_width max_line_digits
          nb sv dv).map fun p => ((if nb.isSome then i + 2 else i + 1), p.1, p.2)
    | some (LineAlignment.DestOnly dest_idx) =>
      let nb : Option (Nat × Nat) :=
        match aligned.get? (i + 1) with
        | some (LineAlignment.Both ns nd) =>
          if normalize_line_for_comparison (source_lines.getD ns []) = [] ∧
              normalize_line_for_comparison (dest_lines.getD nd []) = [] then
            some (ns, nd)
          else none
        | _ => none
      (add_dest_only_line dest_idx dest_lines text_width gutter_width max_line_digits
          nb sv dv).map fun p => ((if nb.isSome then i + 2 else i + 1), p.1, p.2)

/-- The `while i < aligned.len()` loop. `i` strictly increases each
iteration, so `aligned.length` iterations of fuel always suffice. -/
def build_go (aligned : List LineAlignment) (source_lines dest_lines : List (List Char))
    (text_width gutter_width max_line_digits : Nat) (fold_unchanged : Bool)
    (context_lines : Nat) : Nat → Nat → List Row → List Row → Option (List Row × List Row)
  | 0, i, sv, dv => if i < aligned.length then none else some (sv, dv)
  | fuel + 1, i, sv, dv =>
    if i < aligned.length then
      (process_one aligned source_lines dest_lines text_width gutter_width max_line_digits
          fold_unchanged context_lines i sv dv).bind fun r =>
        build_go aligned source_lines dest_lines text_width gutter_width max_line_digits
          fold_unchanged context_lines fuel r.1 r.2.1 r.2.2
    else some (sv, dv)

/-- side_by_side.rs `build_aligned_lines` (the constant `CONTEXT_LINES = 3`
is fixed here; `process_one` keeps it as a parameter so the fold arithmetic
can be stated for any value). -/
def build_aligned_lines (aligned : List LineAlignment)
    (source_lines dest_lines : List (List Char))
    (text_width gutter_width max_line_digits : Nat) (fold_unchanged : Bool) :
    Option (List Row × List Row) :=
  build_go aligned source_lines dest_lines text_width gutter_width max_line_digits
    fold_unchanged CONTEXT_LINES aligned.length 0 [] []

/-- The gutter sizing of `render_side_by_side`:
`(max_line_num as f64).log10().floor() as usize + 1`, with 0 mapped to 1.
For every value below 2^53 the f64 computation equals the decimal digit
count used here. -/
def max_line_digits_of (max_line_num : Nat) : Nat :=
  if max_line_num = 0 then 1 else (Nat.toDigits 10 max_line_num).length

/-- side_by_side.rs `render_side_by_side`, engine part: geometry arithmetic
(lines 26–43, on the column rect), alignment, row building, scroll clamp,
drain and truncation (lines 45–63). `col_width`/`col_height` are the
dimensions of one of the two equal columns; widget construction and blitting
are outside the engine. -/
def render_side_by_side (source_lines dest_lines : List (List Char))
    (col_width col_height : Nat) (fold_unchanged : Bool) (diff_scroll_offset : Nat) :
    Option (List Row × List Row) :=
  let available_height := col_height - 2
  let max_line_num := max source_lines.length dest_lines.length
  let max_line_digits := max_line_digits_of max_line_num
  let gutter_width := max_line_digits + 1
  let right_margin := 1
  let content_area_width := col_width - 2
  let wrap_at := content_area_width - 1
  let text_width := wrap_at - (gutter_width + right_margin)
  let aligned := align_lines source_lines dest_lines
  (build_aligned_lines aligned source_lines dest_lines text_width gutter_width
      max_line_digits fold_unchanged).bind fun p =>
    let scroll_offset := min diff_scroll_offset (p.1.length - 1)
    let sv := if scroll_offset > 0 then p.1.drop scroll_offset else p.1
    let dv := if scroll_offset > 0 then p.2.drop scroll_offset else p.2
    some (sv.take available_height, dv.take available_height)

/-- The condition under which the backtrack of `align_lines` pairs remaining
entries `ri` and `rj`: equal normalizations (blank ones only at equal
original positions) or similarity. -/
def both_pair_ok (rs ds : List (Nat × List Char)) (ri rj : Nat) : Prop :=
  (normalize_line_for_comparison (rs.getD ri (0, [])).2 =
      normalize_line_for_comparison (ds.getD rj (0, [])).2 ∧
    (normalize_line_for_comparison (rs.getD ri (0, [])).2 = [] →
      (rs.getD ri (0, [])).1 = (ds.getD rj (0, [])).1)) ∨
  (normalize_line_for_comparison (rs.getD ri (0, [])).2 ≠
      normalize_line_for_comparison (ds.getD rj (0, [])).2 ∧
    lines_are_similar (rs.getD ri (0, [])).2 (ds.getD rj (0, [])).2 = true)

/-- The `src_idx` values carried by `Matched`/`SourceOnly` entries, in list
order. -/
def src_indices (l : List LineAlignment) : List Nat :=
  l.filterMap (fun e =>
    match e with
    | LineAlignment.Both s _ => some s
    | LineAlignment.SourceOnly s => some s
    | LineAlignment.DestOnly _ => none)

/-- The `dst_idx` values carried by `Matched`/`DestOnly` entries, in list
order. -/
def dst_indices (l : List LineAlignment) : List Nat :=
  l.filterMap (fun e =>
    match e with
    | LineAlignment.Both _ d => some d
    | LineAlignment.DestOnly d => some d
    | LineAlignment.SourceOnly _ => none)

/-- Remaining-space source indices of backtrack entries. -/
def rem_src_idxs (l : List RemAlign) : List Nat :=
  l.filterMap (fun e =>
    match e with
    | RemAlign.both ri _ => some ri
    | RemAlign.src ri => some ri
    | RemAlign.dst _ => none)

/-- Remaining-space destination indices of backtrack entries. -/
def rem_dst_idxs (l : List RemAlign) : List Nat :=
  l.filterMap (fun e =>
    match e with
    | RemAlign.both _ rj => some rj
    | RemAlign.dst rj => some rj
    | RemAlign.src _ => none)

/-- The gutter a row displays: the content row's own gutter string, and the
all-space gutter of blank and fold-indicator rows. -/
def row_gutter : Row → List Char
  | Row.content g _ _ => g
  | Row.blank gw _ => List.replicate gw ' '
  | Row.fold_marker _ _ gw => List.replicate gw ' '

/-- The width of a content row's spans before right-padding. -/
def row_content_len : Row → Nat
  | Row.content _ spans _ => (spans.map (fun s => s.1.length)).sum
  | Row.blank _ _ => 0
  | Row.fold_marker _ _ _ => 0

/-- Whether the op, if it is a `Both`, renders as exactly one physical row on
each side (used to state the fold-arithmetic hypothesis decidably). -/
def one_row_both (source_lines dest_lines : List (List Char)) (tw gw mld : Nat) :
    Option LineAlignment → Bool
  | some (LineAlignment.Both s d) =>
    ((create_highlighted_lines (s + 1) [(source_lines.getD s [], false)] tw gw mld).map
        List.length == some 1) &&
    ((create_highlighted_lines (d + 1) [(dest_lines.getD d [], false)] tw gw mld).map
        List.length == some 1)
  | _ => false

/-! ## Tokenizer lemmas -/

theorem split_inclusive_go_flatten (l acc : List Char) :
    (split_inclusive_go l acc).flatten = acc.reverse ++ l := by
  induction l generalizing acc with
  | nil =>
    simp only [split_inclusive_go]
    split <;> simp_all
  | cons c rest ih =>
    simp only [split_inclusive_go]
    split
    · simp [ih]
    · rw [ih]
      simp

/-- Concatenating the word units of `split_inclusive` restores the line. -/
theorem split_inclusive_ws_flatten (l : List Char) : (split_inclusive_ws l).flatten = l := by
  simpa using split_inclusive_go_flatten l []

theorem common_pfx_len_le_left :
    ∀ a b : List (List Char), common_pfx_len a b ≤ a.length := by
  intro a
  induction a with
  | nil => intro b; cases b <;> simp [common_pfx_len]
  | cons x xs ih =>
    intro b
    cases b with
    | nil => simp [common_pfx_len]
    | cons y ys =>
      simp only [common_pfx_len]
      split
      · simpa using ih ys
      · simp

theorem sfx_go_le (lw ow : List (List Char)) (p : Nat) :
    ∀ rem i, sfx_go lw ow p i rem ≤ rem := by
  intro rem
  induction rem with
  | zero => intro i; simp [sfx_go]
  | succ n ih =>
    intro i
    simp only [sfx_go]
    split
    · have := ih (i + 1)
      omega
    · exact Nat.zero_le _

/-! ## C4 and C5: word-diff segment properties -/

/-- The three-slice decomposition used by both word-diff functions. -/
theorem three_slice_eq (w : List (List Char)) (p s : Nat)
    (hp : p ≤ w.length - s) :
    w.take p ++ (w.take (w.length - s)).drop p ++ w.drop (w.length - s) = w := by
  have h1 : (w.take (w.length - s)).take p = w.take p := by
    rw [List.take_take, Nat.min_eq_left hp]
  calc w.take p ++ (w.take (w.length - s)).drop p ++ w.drop (w.length - s)
      = (w.take (w.length - s)).take p ++ (w.take (w.length - s)).drop p ++
          w.drop (w.length - s) := by rw [h1]
    _ = w.take (w.length - s) ++ w.drop (w.length - s) := by
          rw [List.take_append_drop]
    _ = w := List.take_append_drop _ _

/-- C4: for every pair of lines, concatenating the `text` fields of the
segments returned by `compute_word_diff_source line other` yields exactly
`line`. -/
theorem source_segments_reconstruct_line (line other : List Char) :
    ((compute_word_diff_source line other).map Prod.fst).flatten = line := by
  unfold compute_word_diff_source
  split
  · simp
  split
  · simp
  · set lw := split_inclusive_ws line with hlw
    set ow := split_inclusive_ws other with how
    have hflat : lw.flatten = line := split_inclusive_ws_flatten line
    set p := common_pfx_len lw ow with hp
    set ms := min (min lw.length ow.length - p) (min (lw.length - p) (ow.length - p)) with hms
    set s := sfx_go lw ow p 0 ms with hs
    have hple : p ≤ lw.length := common_pfx_len_le_left lw ow
    have hsle : s ≤ lw.length - p := by
      have h1 : s ≤ ms := sfx_go_le lw ow p ms 0
      have h2 : ms ≤ lw.length - p := by
        calc ms ≤ min (lw.length - p) (ow.length - p) := Nat.min_le_right _ _
          _ ≤ lw.length - p := Nat.min_le_left _ _
      exact le_trans h1 h2
    have hps : p ≤ lw.length - s := by omega
    have e1 : (if p > 0 then [((lw.take p).flatten, false)] else []).map Prod.fst
        = [(lw.take p).flatten] ∨
        ((if p > 0 then [((lw.take p).flatten, false)] else []).map Prod.fst = [] ∧ p = 0) := by
      split
      · left; rfl
      · right; exact ⟨rfl, by omega⟩
    -- flatten of the mapped three-part append
    rw [List.map_append, List.map_append, List.flatten_append, List.flatten_append]
    have h1 : ((if p > 0 then [((lw.take p).flatten, false)] else []).map Prod.fst).flatten
        = (lw.take p).flatten := by
      split
      · simp
      · have : p = 0 := by omega
        simp [this]
    have h2 : ((if p < lw.length - s then
          [(((lw.take (lw.length - s)).drop p).flatten, true)] else []).map Prod.fst).flatten
        = ((lw.take (lw.length - s)).drop p).flatten := by
      split
      · simp
      · have hpe : p = lw.length - s := by omega
        have : (lw.take (lw.length - s)).drop p = [] := by
          apply List.drop_eq_nil_of_le
          rw [List.length_take]
          omega
        simp [this]
    have h3 : ((if s > 0 then [((lw.drop (lw.length - s)).flatten, false)] else []).map
          Prod.fst).flatten = (lw.drop (lw.length - s)).flatten := by
      split
      · simp
      · have : s = 0 := by omega
        have hd : lw.drop (lw.length - s) = [] := by
          rw [this, Nat.sub_zero, List.drop_length]
        simp [hd]
    rw [h1, h2, h3, ← List.flatten_append, ← List.flatten_append, three_slice_eq lw p s hps,
      hflat]

/-- C5 counterexample: `"foo"` is a literal prefix of `"foo bar"`, yet on the
Source side with the roles reversed (`line = "foo bar"`, `other = "foo"`) the
whole line — shared prefix included — is flagged changed. -/
theorem source_prefix_truncation_flags_shared_prefix :
    ("foo".toList <+: "foo bar".toList) ∧
      compute_word_diff_source "foo bar".toList "foo".toList =
        [("foo bar".toList, true)] := by
  constructor
  · decide
  · decide

/-- C5 (amended): the prefix-extension special case holds in the extension
direction only — `Source` when `line` is a prefix of `other`, `Destination`
when `other` is a proper prefix of the (not whitespace-only) `line` — and in
particular on the two quoted examples. In the truncation direction the shared
prefix can be flagged (see the counterexample). -/
theorem prefix_extension_cases (line other : List Char) :
    (line <+: other → compute_word_diff_source line other = [(line, false)]) ∧
    (other <+: line → other ≠ line → trim line ≠ [] →
      compute_word_diff_dest line other = [(other, false), (line.drop other.length, true)]) ∧
    compute_word_diff_source "foo".toList "foo bar".toList = [("foo".toList, false)] ∧
    compute_word_diff_dest "foo bar".toList "foo".toList =
      [("foo".toList, false), (" bar".toList, true)] := by
  refine ⟨?_, ?_, by decide, by decide⟩
  · intro h
    unfold compute_word_diff_source
    split
    · rfl
    · rw [if_pos]
      exact List.isPrefixOf_iff_prefix.mpr h
  · intro h hne hblank
    have hnorm : normalize_line_for_comparison line = line := by
      unfold normalize_line_for_comparison
      rw [if_neg hblank]
    have hneq : normalize_line_for_comparison line ≠ normalize_line_for_comparison other := by
      rw [hnorm]
      unfold normalize_line_for_comparison
      split
      · intro hl
        rw [hl] at hblank
        exact hblank rfl
      · intro hl
        exact hne hl.symm
    obtain ⟨t, ht⟩ := h
    have htne : t ≠ [] := by
      intro h0
      rw [h0, List.append_nil] at ht
      exact hne ht
    have hdrop : line.drop other.length = t := by
      rw [← ht, List.drop_left]
    unfold compute_word_diff_dest
    rw [if_neg hneq, if_pos]
    constructor
    · exact List.isPrefixOf_iff_prefix.mpr ⟨t, ht⟩
    · rw [hdrop]; exact htne

/-! ## C7: wrap arithmetic -/

set_option maxRecDepth 8000 in
/-- C7 counterexample: wrapping one unchanged 250-character token at
`text_width = 80` yields 4 rows whose gutters are all `"1 "` — the
wrap-continuation rows repeat the line number instead of using the blank
gutter the claim requires. -/
theorem wrap_continuation_gutter_repeats_line_number :
    (create_highlighted_lines 1 [(List.replicate 250 'a', false)] 80 2 1).map
        (fun rows => rows.map row_gutter) =
      some [['1', ' '], ['1', ' '], ['1', ' '], ['1', ' ']] ∧
    (['1', ' '] : List Char) ≠ List.replicate 2 ' ' := by
  exact ⟨by decide, by decide⟩

set_option maxRecDepth 8000 in
/-- C7 (amended): wrapping a single unchanged 250-character whitespace-free
line at `text_width = 80` produces exactly 4 physical rows with content
lengths 80, 80, 80, 10 before padding; every row — the continuation rows
included — carries the line number in a gutter of identical width (the code
builds `continuation_gutter` equal to `gutter`). -/
theorem wrap_arithmetic_250_at_80 :
    (create_highlighted_lines 1 [(List.replicate 250 'a', false)] 80 2 1).map
        (fun rows => rows.map (fun r => (row_gutter r, row_content_len r))) =
      some [(['1', ' '], 80), (['1', ' '], 80), (['1', ' '], 80), (['1', ' '], 10)] := by
  decide

/-! ## C8: viewport -/

/-- C8 counterexample: one logical line (one physical row) with
`scroll_offset = 5`: the offset is clamped to `len - 1 = 0`, so the result
keeps 1 row — a scroll at or past the end does not leave an empty row set. -/
theorem scroll_past_end_keeps_last_row :
    (render_side_by_side [['a']] [['a']] 30 10 false 5).map
        (fun p => (p.1.length, p.2.length)) = some (1, 1) := by
  decide

/-- C8 (amended): the viewport drops `min scroll_offset (len - 1)` rows — the
offset is clamped so that, when any rows exist, at least the last one
survives the drop — from the front of both finished physical-row sequences
(both sides use the clamp computed from the source side, whose length equals
the destination's), then truncates both to `available_height = col_height - 2`
rows; consequently the result length is
`min available_height (len - min scroll_offset (len - 1))`, and a scroll at
or past the end leaves the final row rather than an empty set. -/
theorem viewport_clamped_drop_take (source dest : List (List Char))
    (col_width col_height : Nat) (fold : Bool) (so : Nat) (sv dv : List Row)
    (hb : build_aligned_lines (align_lines source dest) source dest
        ((col_width - 2 - 1) - ((max_line_digits_of (max source.length dest.length) + 1) + 1))
        (max_line_digits_of (max source.length dest.length) + 1)
        (max_line_digits_of (max source.length dest.length)) fold = some (sv, dv)) :
    render_side_by_side source dest col_width col_height fold so =
      some ((sv.drop (min so (sv.length - 1))).take (col_height - 2),
            (dv.drop (min so (sv.length - 1))).take (col_height - 2)) ∧
    ((sv.drop (min so (sv.length - 1))).take (col_height - 2)).length =
      min (col_height - 2) (sv.length - min so (sv.length - 1)) := by
  constructor
  · have hdef : render_side_by_side source dest col_width col_height fold so =
        (build_aligned_lines (align_lines source dest) source dest
            ((col_width - 2 - 1) -
              ((max_line_digits_of (max source.length dest.length) + 1) + 1))
            (max_line_digits_of (max source.length dest.length) + 1)
            (max_line_digits_of (max source.length dest.length)) fold).bind (fun p =>
          some ((if min so (p.1.length - 1) > 0 then
              p.1.drop (min so (p.1.length - 1)) else p.1).take (col_height - 2),
            (if min so (p.1.length - 1) > 0 then
              p.2.drop (min so (p.1.length - 1)) else p.2).take (col_height - 2))) := rfl
    rw [hdef, hb]
    show some _ = some _
    by_cases h : min so (sv.length - 1) > 0
    · simp only [if_pos h]
    · simp only [if_neg h]
      have h0 : min so (sv.length - 1) = 0 := by omega
      rw [h0, List.drop_zero, List.drop_zero]
  · rw [List.length_take, List.length_drop]

/-! ## C3: totality fails at text_width = 0 -/

/-- C3 (code bug): with `text_width = 0` and a non-empty unit, the
character-split loop of `create_highlighted_lines` never terminates —
`remaining` is always 0, so every iteration flushes an empty row and
`continue`s without advancing `char_idx`. The model returns `none` for every
fuel; consequently `create_highlighted_lines` and the whole
`render_side_by_side` pipeline fail to produce a result (e.g. at column
width 6, where the geometry arithmetic yields `text_width = 0`), against the
engine's own all-saturating, degrade-gracefully design. -/
theorem zero_width_wrap_never_terminates :
    (∀ (fuel char_idx : Nat) (st : CHLState) (changed : Bool) (g cg chars : List Char),
      char_idx < chars.length →
      char_split_go 0 changed g cg chars fuel char_idx st = none) ∧
    create_highlighted_lines 1 [(['a'], false)] 0 2 1 = none ∧
    render_side_by_side [['a']] [['a']] 6 10 false 0 = none := by
  refine ⟨?_, by decide, by decide⟩
  intro fuel
  induction fuel with
  | zero =>
    intro char_idx st changed g cg chars h
    simp only [char_split_go]
    rw [if_pos h]
  | succ n ih =>
    intro char_idx st changed g cg chars h
    simp only [char_split_go]
    rw [if_pos h]
    have hrem : (0 : Nat) - st.cur_width = 0 := Nat.zero_sub _
    rw [hrem]
    simp only [if_pos rfl]
    exact ih char_idx _ changed g cg chars h

/-- Witness for the divergence theorem at a concrete input. -/
theorem zero_width_wrap_never_terminates_witness :
    char_split_go 0 false ['1', ' '] ['1', ' '] ['a'] 7 0
      { lines := [], cur := [], cur_width := 0, is_first := true } = none :=
  zero_width_wrap_never_terminates.1 7 0
    { lines := [], cur := [], cur_width := 0, is_first := true }
    false ['1', ' '] ['1', ' '] ['a'] (by decide)

/-- Witness for the clamped-viewport theorem at a concrete input. -/
theorem viewport_clamped_drop_take_witness :
    render_side_by_side [['a']] [['a']] 30 10 false 5 =
      some ((([Row.content ['1', ' '] [(['a'], false)] 23]).drop
          (min 5 ([Row.content ['1', ' '] [(['a'], false)] 23].length - 1))).take (10 - 2),
        (([Row.content ['1', ' '] [(['a'], false)] 23]).drop
          (min 5 ([Row.content ['1', ' '] [(['a'], false)] 23].length - 1))).take (10 - 2)) :=
  (viewport_clamped_drop_take [['a']] [['a']] 30 10 false 5
    [Row.content ['1', ' '] [(['a'], false)] 23]
    [Row.content ['1', ' '] [(['a'], false)] 23] (by decide)).1

/-! ## C9 and C10: what the aligner pairs as `Both` -/

theorem backtrack_both_ok (rs ds : List (Nat × List Char)) (tab : List (List Nat)) :
    ∀ fuel i j ri rj, RemAlign.both ri rj ∈ backtrack_go rs ds tab fuel i j →
      ri < i ∧ rj < j ∧ both_pair_ok rs ds ri rj := by
  intro fuel
  induction fuel with
  | zero =>
    intro i j ri rj h
    simp [backtrack_go] at h
  | succ n ih =>
    intro i j ri rj h
    simp only [backtrack_go] at h
    by_cases h1 : i > 0 ∧ j > 0
    · rw [if_pos h1] at h
      by_cases h2 : normalize_line_for_comparison (rs.getD (i - 1) (0, [])).2 =
          normalize_line_for_comparison (ds.getD (j - 1) (0, [])).2
      · rw [if_pos h2] at h
        by_cases h3 : (if normalize_line_for_comparison (rs.getD (i - 1) (0, [])).2 = []
              then (rs.getD (i - 1) (0, [])).1 = (ds.getD (j - 1) (0, [])).1 else True) ∧
            dp_get tab i j = dp_get tab (i - 1) (j - 1) + 1
        · rw [if_pos h3] at h
          rcases List.mem_cons.mp h with he | ht
          · injection he with e1 e2
            subst e1; subst e2
            refine ⟨by omega, by omega, Or.inl ⟨h2, fun hb => ?_⟩⟩
            have := h3.1
            rw [if_pos hb] at this
            exact this
          · obtain ⟨b1, b2, b3⟩ := ih _ _ _ _ ht
            exact ⟨by omega, by omega, b3⟩
        · rw [if_neg h3] at h
          by_cases h4 : dp_get tab (i - 1) j ≥ dp_get tab i (j - 1)
          · rw [if_pos h4] at h
            rcases List.mem_cons.mp h with he | ht
            · exact absurd he (by simp)
            · obtain ⟨b1, b2, b3⟩ := ih _ _ _ _ ht
              exact ⟨by omega, b2, b3⟩
          · rw [if_neg h4] at h
            rcases List.mem_cons.mp h with he | ht
            · exact absurd he (by simp)
            · obtain ⟨b1, b2, b3⟩ := ih _ _ _ _ ht
              exact ⟨b1, by omega, b3⟩
      · rw [if_neg h2] at h
        by_cases h3 : lines_are_similar (rs.getD (i - 1) (0, [])).2 (ds.getD (j - 1) (0, [])).2 ∧
            dp_get tab i j = dp_get tab (i - 1) (j - 1) + 1
        · rw [if_pos h3] at h
          rcases List.mem_cons.mp h with he | ht
          · injection he with e1 e2
            subst e1; subst e2
            exact ⟨by omega, by omega, Or.inr ⟨h2, h3.1⟩⟩
          · obtain ⟨b1, b2, b3⟩ := ih _ _ _ _ ht
            exact ⟨by omega, by omega, b3⟩
        · rw [if_neg h3] at h
          by_cases h4 : dp_get tab (i - 1) j > dp_get tab i (j - 1)
          · rw [if_pos h4] at h
            rcases List.mem_cons.mp h with he | ht
            · exact absurd he (by simp)
            · obtain ⟨b1, b2, b3⟩ := ih _ _ _ _ ht
              exact ⟨by omega, b2, b3⟩
          · rw [if_neg h4] at h
            by_cases h5 : dp_get tab i (j - 1) > dp_get tab (i - 1) j
            · rw [if_pos h5] at h
              rcases List.mem_cons.mp h with he | ht
              · exact absurd he (by simp)
              · obtain ⟨b1, b2, b3⟩ := ih _ _ _ _ ht
                exact ⟨b1, by omega, b3⟩
            · rw [if_neg h5] at h
              rcases List.mem_cons.mp h with he | ht
              · exact absurd he (by simp)
              · obtain ⟨b1, b2, b3⟩ := ih _ _ _ _ ht
                exact ⟨by omega, b2, b3⟩
    · rw [if_neg h1] at h
      by_cases h2 : i > 0
      · rw [if_pos h2] at h
        rcases List.mem_cons.mp h with he | ht
        · exact absurd he (by simp)
        · obtain ⟨b1, b2, b3⟩ := ih _ _ _ _ ht
          exact ⟨by omega, b2, b3⟩
      · rw [if_neg h2] at h
        by_cases h3 : j > 0
        · rw [if_pos h3] at h
          rcases List.mem_cons.mp h with he | ht
          · exact absurd he (by simp)
          · obtain ⟨b1, b2, b3⟩ := ih _ _ _ _ ht
            exact ⟨b1, by omega, b3⟩
        · rw [if_neg h3] at h
          simp at h

/-- Elements of `lines.enum.filter (·.1 ∉ used)` carry their own line. -/
theorem mem_remaining {lines : List (List Char)} {used : List Nat} {p : Nat × List Char}
    (h : p ∈ lines.enum.filter (fun q => q.1 ∉ used)) :
    p.2 = lines.getD p.1 [] ∧ p.1 < lines.length ∧ p.1 ∉ used := by
  rw [List.mem_filter] at h
  obtain ⟨hmem, hpred⟩ := h
  rw [List.mem_enum_iff_getElem?] at hmem
  have hlt : p.1 < lines.length := by
    by_contra hge
    rw [List.getElem?_eq_none (by omega)] at hmem
    exact Option.noConfusion hmem
  refine ⟨?_, hlt, of_decide_eq_true hpred⟩
  simp [List.getD_eq_getElem?_getD, hmem]

theorem getD_mem {α : Type} {l : List α} {n : Nat} (h : n < l.length) (d : α) :
    l.getD n d ∈ l := by
  simp only [List.getD_eq_getElem?_getD, List.getElem?_eq_getElem h, Option.getD_some]
  exact List.getElem_mem h

/-- Members of the forced-match list. -/
theorem mem_forced_matches {source dest : List (List Char)} {p : Nat × Nat}
    (h : p ∈ forced_matches source dest) :
    p.2 = p.1 ∧ p.1 < min source.length dest.length ∧
    normalize_line_for_comparison (source.getD p.1 []) = [] ∧
    normalize_line_for_comparison (dest.getD p.1 []) = [] := by
  unfold forced_matches at h
  rw [List.mem_filterMap] at h
  obtain ⟨idx, hidx, hif⟩ := h
  rw [List.mem_range] at hidx
  split at hif
  · next hcond =>
    injection hif with he
    subst he
    exact ⟨rfl, hidx, by simpa using hcond.1, by simpa using hcond.2⟩
  · exact Option.noConfusion hif

/-- STEP 6 never creates a `Both` entry: every member of the output is a
member of the input or one-sided. -/
theorem step6_mem {source dest : List (List Char)} {l : List LineAlignment}
    {e : LineAlignment} (h : e ∈ step6 source dest l) :
    e ∈ l ∨ (∃ s, e = LineAlignment.SourceOnly s) ∨ (∃ d, e = LineAlignment.DestOnly d) := by
  unfold step6 at h
  generalize hr : List.range l.length = r at h
  clear hr
  induction r generalizing l with
  | nil => exact Or.inl h
  | cons k r ihr =>
    rw [List.foldl_cons] at h
    rcases ihr h with hm | hs | hd
    · unfold step6_convert at hm
      split at hm
      · split at hm
        · rcases List.mem_or_eq_of_mem_set hm with hm' | rfl
          · exact Or.inl hm'
          · exact Or.inr (Or.inl ⟨_, rfl⟩)
        · exact Or.inl hm
      · split at hm
        · rcases List.mem_or_eq_of_mem_set hm with hm' | rfl
          · exact Or.inl hm'
          · exact Or.inr (Or.inr ⟨_, rfl⟩)
        · exact Or.inl hm
      · exact Or.inl hm
    · exact Or.inr (Or.inl hs)
    · exact Or.inr (Or.inr hd)

/-- Every `Both i j` in the final alignment comes with its pairing
justification on the original lines. -/
theorem both_mem_align_lines {source dest : List (List Char)} {i j : Nat}
    (h : LineAlignment.Both i j ∈ align_lines source dest) :
    (normalize_line_for_comparison (source.getD i []) =
        normalize_line_for_comparison (dest.getD j []) ∧
      (normalize_line_for_comparison (source.getD i []) = [] → i = j)) ∨
    (normalize_line_for_comparison (source.getD i []) ≠
        normalize_line_for_comparison (dest.getD j []) ∧
      lines_are_similar (source.getD i []) (dest.getD j []) = true) := by
  unfold align_lines at h
  rw [(List.perm_insertionSort _ _).mem_iff] at h
  have forced_case : ∀ hf : LineAlignment.Both i j ∈ (forced_matches source dest).map
      (fun p => LineAlignment.Both p.1 p.2),
      normalize_line_for_comparison (source.getD i []) =
          normalize_line_for_comparison (dest.getD j []) ∧
        (normalize_line_for_comparison (source.getD i []) = [] → i = j) := by
    intro hf
    rw [List.mem_map] at hf
    obtain ⟨p, hp, he⟩ := hf
    obtain ⟨hpe, hplt, hsn, hdn⟩ := mem_forced_matches hp
    injection he with e1 e2
    subst e1
    subst e2
    rw [hpe]
    exact ⟨hsn.trans hdn.symm, fun _ => rfl⟩
  rcases step6_mem h with hmem | ⟨s, he⟩ | ⟨d, he⟩
  · unfold align_raw at hmem
    dsimp only at hmem
    split at hmem
    · -- the DP branch ran
      rw [List.mem_append] at hmem
      rcases hmem with hf | hrest
      · exact Or.inl (forced_case hf)
      · rw [List.mem_map] at hrest
        obtain ⟨re, hre, heq⟩ := hrest
        unfold lcs_rem at hre
        rw [List.mem_reverse] at hre
        match re, heq with
        | RemAlign.both ri rj, heq =>
          obtain ⟨hri, hrj, hok⟩ := backtrack_both_ok _ _ _ _ _ _ _ _ hre
          unfold rem_to_orig at heq
          injection heq with e1 e2
          have hrsm := getD_mem hri ((0 : Nat), ([] : List Char))
          have hdsm := getD_mem hrj ((0 : Nat), ([] : List Char))
          obtain ⟨hsl, _, _⟩ := mem_remaining hrsm
          obtain ⟨hdl, _, _⟩ := mem_remaining hdsm
          unfold both_pair_ok at hok
          rw [hsl, hdl, e1, e2] at hok
          exact hok
        | RemAlign.src ri, heq => exact absurd heq (by simp [rem_to_orig])
        | RemAlign.dst rj, heq => exact absurd heq (by simp [rem_to_orig])
    · -- no-DP branch: one-sided entries beyond the forced matches
      rw [List.mem_append, List.mem_append] at hmem
      rcases hmem with (hf | hs) | hd
      · exact Or.inl (forced_case hf)
      · rw [List.mem_map] at hs
        obtain ⟨p, _, he⟩ := hs
        exact absurd he (by simp)
      · rw [List.mem_map] at hd
        obtain ⟨p, _, he⟩ := hd
        exact absurd he (by simp)
  · exact absurd he (by simp)
  · exact absurd he (by simp)

/-- C9: `align_lines` never emits `Both i j` with `i ≠ j` for two
whitespace-only (normalized-empty) lines — blank lines are paired only at
equal positions, via the forced-match scan, the DP fill restriction and the
backtrack restriction. -/
theorem blank_both_only_at_equal_index (source dest : List (List Char)) (i j : Nat)
    (h : LineAlignment.Both i j ∈ align_lines source dest)
    (hsrc : normalize_line_for_comparison (source.getD i []) = [])
    (hdst : normalize_line_for_comparison (dest.getD j []) = []) : i = j := by
  rcases both_mem_align_lines h with ⟨_, hb⟩ | ⟨hne, _⟩
  · exact hb hsrc
  · exact absurd (hsrc.trans hdst.symm) hne

/-- Witness: the two whitespace-only lines of `[[' ']]` vs `[[' ']]` are
paired, and the theorem applies to them. -/
theorem blank_both_only_at_equal_index_witness : (0 : Nat) = 0 :=
  blank_both_only_at_equal_index [[' ']] [[' ']] 0 0 (by decide) (by decide) (by decide)

/-- C10: every `Both i j` emitted by `align_lines` pairs lines that are
normalized-equal or whose whitespace-token-set Jaccard similarity exceeds
0.3 (as the exact integer comparison `10 * |S₁ ∩ S₂| > 3 * |S₁ ∪ S₂|`);
there is no fallback pairing two dissimilar non-blank lines. -/
theorem both_normalized_equal_or_jaccard (source dest : List (List Char)) (i j : Nat)
    (h : LineAlignment.Both i j ∈ align_lines source dest) :
    normalize_line_for_comparison (source.getD i []) =
      normalize_line_for_comparison (dest.getD j []) ∨
    10 * jaccard_inter (source.getD i []) (dest.getD j []) >
      3 * jaccard_union (source.getD i []) (dest.getD j []) := by
  rcases both_mem_align_lines h with ⟨he, _⟩ | ⟨hne, hsim⟩
  · exact Or.inl he
  · right
    simp only [lines_are_similar] at hsim
    split at hsim
    · next hc => exact absurd (hc.1.trans hc.2.symm) hne
    · split at hsim
      · exact Bool.noConfusion hsim
      · split at hsim
        · exact Bool.noConfusion hsim
        · exact of_decide_eq_true hsim

/-- Witness: the pair `Both 0 0` produced for two equal lines satisfies the
pairing condition. -/
theorem both_normalized_equal_or_jaccard_witness :
    normalize_line_for_comparison ((["a".toList] : List (List Char)).getD 0 []) =
      normalize_line_for_comparison ((["a".toList] : List (List Char)).getD 0 []) ∨
    10 * jaccard_inter ((["a".toList] : List (List Char)).getD 0 [])
        ((["a".toList] : List (List Char)).getD 0 []) >
      3 * jaccard_union ((["a".toList] : List (List Char)).getD 0 [])
        ((["a".toList] : List (List Char)).getD 0 []) :=
  both_normalized_equal_or_jaccard ["a".toList] ["a".toList] 0 0 (by decide)

/-- Witness for the prefix-extension theorem at the two quoted inputs. -/
theorem prefix_extension_cases_witness :
    compute_word_diff_source "ab".toList "ab cd".toList = [("ab".toList, false)] ∧
    compute_word_diff_dest "xy z".toList "xy".toList =
      [("xy".toList, false), (" z".toList, true)] :=
  ⟨(prefix_extension_cases "ab".toList "ab cd".toList).1 (by decide),
   (prefix_extension_cases "xy z".toList "xy".toList).2.1 (by decide) (by decide) (by decide)⟩

/-! ## C2: vertical sync -/

theorem add_unchanged_line_sync {src_idx dest_idx : Nat}
    {source_lines dest_lines : List (List Char)} {tw gw mld : Nat}
    {sv dv sv' dv' : List Row}
    (h : add_unchanged_line src_idx dest_idx source_lines dest_lines tw gw mld sv dv =
      some (sv', dv'))
    (hlen : sv.length = dv.length) : sv'.length = dv'.length := by
  unfold add_unchanged_line at h
  rw [Option.bind_eq_some] at h
  obtain ⟨sw, hsw, h⟩ := h
  rw [Option.bind_eq_some] at h
  obtain ⟨dw, hdw, h⟩ := h
  dsimp only at h
  split at h
  · next hgt =>
    injection h with he
    rw [Prod.mk.injEq] at he
    obtain ⟨h1, h2⟩ := he
    subst h1; subst h2
    simp only [List.length_append, List.length_replicate]
    omega
  · split at h
    · next hgt =>
      injection h with he
      rw [Prod.mk.injEq] at he
      obtain ⟨h1, h2⟩ := he
      subst h1; subst h2
      simp only [List.length_append, List.length_replicate]
      omega
    · next h1 h2 =>
      injection h with he
      rw [Prod.mk.injEq] at he
      obtain ⟨h3, h4⟩ := he
      subst h3; subst h4
      simp only [List.length_append]
      omega

theorem add_modified_line_sync {src_idx dest_idx : Nat}
    {source_lines dest_lines : List (List Char)} {tw gw mld : Nat}
    {sv dv sv' dv' : List Row}
    (h : add_modified_line src_idx dest_idx source_lines dest_lines tw gw mld sv dv =
      some (sv', dv'))
    (hlen : sv.length = dv.length) : sv'.length = dv'.length := by
  unfold add_modified_line at h
  rw [Option.bind_eq_some] at h
  obtain ⟨sw, hsw, h⟩ := h
  rw [Option.bind_eq_some] at h
  obtain ⟨dw, hdw, h⟩ := h
  dsimp only at h
  split at h
  · injection h with he
    rw [Prod.mk.injEq] at he
    obtain ⟨h1, h2⟩ := he
    subst h1; subst h2
    simp only [List.length_append, List.length_replicate]
    omega
  · split at h
    · injection h with he
      rw [Prod.mk.injEq] at he
      obtain ⟨h1, h2⟩ := he
      subst h1; subst h2
      simp only [List.length_append, List.length_replicate]
      omega
    · injection h with he
      rw [Prod.mk.injEq] at he
      obtain ⟨h3, h4⟩ := he
      subst h3; subst h4
      simp only [List.length_append]
      omega

theorem add_source_only_line_sync {src_idx : Nat} {source_lines : List (List Char)}
    {tw gw mld : Nat} {nb : Option (Nat × Nat)} {sv dv sv' dv' : List Row}
    (h : add_source_only_line src_idx source_lines tw gw mld nb sv dv = some (sv', dv'))
    (hlen : sv.length = dv.length) : sv'.length = dv'.length := by
  unfold add_source_only_line at h
  rw [Option.bind_eq_some] at h
  obtain ⟨sw, hsw, h⟩ := h
  dsimp only at h
  match nb, h with
  | some (ns, nd), h =>
    rw [Option.bind_eq_some] at h
    obtain ⟨bw, hbw, h⟩ := h
    injection h with he
    rw [Prod.mk.injEq] at he
    obtain ⟨h1, h2⟩ := he
    subst h1; subst h2
    simp only [List.length_append, List.length_replicate]
    omega
  | none, h =>
    injection h with he
    rw [Prod.mk.injEq] at he
    obtain ⟨h1, h2⟩ := he
    subst h1; subst h2
    simp only [List.length_append, List.length_replicate]
    omega

theorem add_dest_only_line_sync {dest_idx : Nat} {dest_lines : List (List Char)}
    {tw gw mld : Nat} {nb : Option (Nat × Nat)} {sv dv sv' dv' : List Row}
    (h : add_dest_only_line dest_idx dest_lines tw gw mld nb sv dv = some (sv', dv'))
    (hlen : sv.length = dv.length) : sv'.length = dv'.length := by
  unfold add_dest_only_line at h
  rw [Option.bind_eq_some] at h
  obtain ⟨dw, hdw, h⟩ := h
  dsimp only at h
  match nb, h with
  | some (ns, nd), h =>
    rw [Option.bind_eq_some] at h
    obtain ⟨bw, hbw, h⟩ := h
    injection h with he
    rw [Prod.mk.injEq] at he
    obtain ⟨h1, h2⟩ := he
    subst h1; subst h2
    simp only [List.length_append, List.length_replicate]
    omega
  | none, h =>
    injection h with he
    rw [Prod.mk.injEq] at he
    obtain ⟨h1, h2⟩ := he
    subst h1; subst h2
    simp only [List.length_append, List.length_replicate]
    omega

/-- The context-emitting folds of the fold branch preserve equal counts. -/
theorem fold_context_sync {aligned : List LineAlignment}
    {source_lines dest_lines : List (List Char)} {tw gw mld : Nat} (ks : List Nat) :
    ∀ (p p' : List Row × List Row),
      ks.foldlM (fun (p : List Row × List Row) k =>
        match aligned.getD k (LineAlignment.SourceOnly 0) with
        | LineAlignment.Both s d =>
          add_unchanged_line s d source_lines dest_lines tw gw mld p.1 p.2
        | _ => some p) p = some p' →
      p.1.length = p.2.length → p'.1.length = p'.2.length := by
  induction ks with
  | nil =>
    intro p p' h hlen
    injection h with he
    rw [← he]
    exact hlen
  | cons k ks ih =>
    intro p p' h hlen
    rw [List.foldlM_cons, Option.bind_eq_bind, Option.bind_eq_some] at h
    obtain ⟨q, hq, h⟩ := h
    refine ih q p' h ?_
    revert hq
    split
    · intro hq
      exact add_unchanged_line_sync (by rw [hq]) hlen
    · intro hq
      injection hq with he
      rw [← he]
      exact hlen

/-- `emit_fold_run` preserves equal counts and lands at `i + uc`. -/
theorem emit_fold_run_sync {aligned : List LineAlignment}
    {source_lines dest_lines : List (List Char)} {tw gw mld : Nat}
    {i uc cb ca hidden : Nat} {sv dv : List Row} {i' : Nat} {sv' dv' : List Row}
    (h : emit_fold_run aligned source_lines dest_lines tw gw mld i uc cb ca hidden sv dv =
      some (i', sv', dv'))
    (hlen : sv.length = dv.length) : sv'.length = dv'.length ∧ i' = i + uc := by
  unfold emit_fold_run at h
  rw [Option.bind_eq_some] at h
  obtain ⟨p1, hp1, h⟩ := h
  dsimp only at h
  rw [Option.bind_eq_some] at h
  obtain ⟨p2, hp2, h⟩ := h
  injection h with he
  rw [Prod.mk.injEq] at he
  obtain ⟨he1, he2⟩ := he
  rw [Prod.mk.injEq] at he2
  obtain ⟨he2, he3⟩ := he2
  subst he2; subst he3
  have hl1 : p1.1.length = p1.2.length := fold_context_sync _ _ _ hp1 hlen
  have hl2 : p2.1.length = p2.2.length := by
    refine fold_context_sync _ _ _ hp2 ?_
    split
    · simp only [List.length_append, List.length_singleton]
      omega
    · exact hl1
  exact ⟨hl2, he1.symm⟩

/-- One loop iteration of `build_aligned_lines` preserves equal row counts on
the two sides and strictly advances the op index. -/
theorem process_one_sync {aligned : List LineAlignment}
    {source_lines dest_lines : List (List Char)} {tw gw mld : Nat} {fold : Bool}
    {ctx i : Nat} {sv dv : List Row} {i' : Nat} {sv' dv' : List Row}
    (h : process_one aligned source_lines dest_lines tw gw mld fold ctx i sv dv =
      some (i', sv', dv'))
    (hlen : sv.length = dv.length) : sv'.length = dv'.length ∧ i < i' := by
  unfold process_one at h
  dsimp only at h
  split at h
  · -- the fold check yielded `some r`; `r` is the iteration's result
    next r hr =>
    split_ifs at hr
    all_goals
      first
      | exact Option.noConfusion hr
      | · injection hr with hr'
          rw [← hr'] at h
          obtain ⟨hl, hi⟩ := emit_fold_run_sync h hlen
          exact ⟨hl, by omega⟩
  · -- the fold check yielded `none`: the per-op match runs
    split at h
    · exact Option.noConfusion h
    · -- Both
      next src_idx dest_idx hget =>
      have hunch : ∀ _ : Option.map (fun p => (i + 1, p.1, p.2))
          (add_unchanged_line src_idx dest_idx source_lines dest_lines tw gw mld sv dv) =
            some (i', sv', dv'),
          sv'.length = dv'.length ∧ i < i' := by
        intro hh
        rw [Option.map_eq_some'] at hh
        obtain ⟨p, hp, he⟩ := hh
        rw [Prod.mk.injEq] at he
        obtain ⟨he1, he2⟩ := he
        rw [Prod.mk.injEq] at he2
        obtain ⟨he2, he3⟩ := he2
        subst he1; subst he2; subst he3
        exact ⟨add_unchanged_line_sync hp hlen, by omega⟩
      split at h
      · rw [if_pos rfl] at h
        exact hunch h
      · split at h
        · exact hunch h
        · rw [Option.map_eq_some'] at h
          obtain ⟨p, hp, he⟩ := h
          rw [Prod.mk.injEq] at he
          obtain ⟨he1, he2⟩ := he
          rw [Prod.mk.injEq] at he2
          obtain ⟨he2, he3⟩ := he2
          subst he1; subst he2; subst he3
          exact ⟨add_modified_line_sync hp hlen, by omega⟩
    · -- SourceOnly
      next src_idx hget =>
      rw [Option.map_eq_some'] at h
      obtain ⟨p, hp, he⟩ := h
      rw [Prod.mk.injEq] at he
      obtain ⟨he1, he2⟩ := he
      rw [Prod.mk.injEq] at he2
      obtain ⟨he2, he3⟩ := he2
      subst he2; subst he3
      refine ⟨add_source_only_line_sync hp hlen, ?_⟩
      split at he1 <;> omega
    · -- DestOnly
      next dest_idx hget =>
      rw [Option.map_eq_some'] at h
      obtain ⟨p, hp, he⟩ := h
      rw [Prod.mk.injEq] at he
      obtain ⟨he1, he2⟩ := he
      rw [Prod.mk.injEq] at he2
      obtain ⟨he2, he3⟩ := he2
      subst he2; subst he3
      refine ⟨add_dest_only_line_sync hp hlen, ?_⟩
      split at he1 <;> omega

theorem build_go_sync {aligned : List LineAlignment}
    {source_lines dest_lines : List (List Char)} {tw gw mld : Nat} {fold : Bool}
    {ctx : Nat} :
    ∀ (fuel i : Nat) (sv dv : List Row) (r : List Row × List Row),
      build_go aligned source_lines dest_lines tw gw mld fold ctx fuel i sv dv = some r →
      sv.length = dv.length → r.1.length = r.2.length := by
  intro fuel
  induction fuel with
  | zero =>
    intro i sv dv r h hlen
    simp only [build_go] at h
    split at h
    · exact Option.noConfusion h
    · injection h with he
      rw [← he]
      exact hlen
  | succ n ih =>
    intro i sv dv r h hlen
    simp only [build_go] at h
    split at h
    · rw [Option.bind_eq_some] at h
      obtain ⟨q, hq, h⟩ := h
      exact ih q.1 q.2.1 q.2.2 r h (process_one_sync hq hlen).1
    · injection h with he
      rw [← he]
      exact hlen

/-- C2: the two row sequences stay synchronized — each processed op extends
both sides by the same number of physical rows (wrap padding, one-sided
blank rows and the shared fold marker keep the running counts equal at every
op boundary), and for every viewport configuration the finished pair of row
sequences returned by the formatter has equal lengths. -/
theorem vertical_sync :
    (∀ (aligned : List LineAlignment) (source_lines dest_lines : List (List Char))
      (tw gw mld : Nat) (fold : Bool) (ctx i : Nat) (sv dv : List Row)
      (i' : Nat) (sv' dv' : List Row),
      process_one aligned source_lines dest_lines tw gw mld fold ctx i sv dv =
        some (i', sv', dv') →
      sv.length = dv.length → sv'.length = dv'.length ∧ i < i') ∧
    (∀ (source dest : List (List Char)) (col_width col_height : Nat) (fold : Bool)
      (so : Nat) (rs rd : List Row),
      render_side_by_side source dest col_width col_height fold so = some (rs, rd) →
      rs.length = rd.length) := by
  constructor
  · intro aligned source_lines dest_lines tw gw mld fold ctx i sv dv i' sv' dv' h hlen
    exact process_one_sync h hlen
  · intro source dest col_width col_height fold so rs rd h
    unfold render_side_by_side at h
    rw [Option.bind_eq_some] at h
    obtain ⟨p, hp, h⟩ := h
    unfold build_aligned_lines at hp
    have hlen : p.1.length = p.2.length := build_go_sync _ _ _ _ _ hp rfl
    injection h with he
    rw [Prod.mk.injEq] at he
    obtain ⟨h1, h2⟩ := he
    subst h1; subst h2
    split <;> simp [List.length_take, List.length_drop, hlen]

/-- Witness for the vertical-sync theorem at a concrete configuration. -/
theorem vertical_sync_witness :
    ([Row.content ['1', ' '] [(['a'], false)] 23] : List Row).length =
      ([Row.content ['1', ' '] [(['a'], false)] 23] : List Row).length :=
  vertical_sync.2 [['a']] [['a']] 30 10 false 0 _ _ (by decide)

/-! ## C6: fold arithmetic -/

theorem getD_drop_align (l : List LineAlignment) (i k : Nat) (d : LineAlignment) :
    (l.drop i).getD k d = l.getD (i + k) d := by
  simp [List.getD_eq_getElem?_getD, List.getElem?_drop]

/-- Positions inside the counted unchanged run are normalized-equal `Both`
ops. -/
theorem count_unchanged_elts {src dst : List (List Char)} :
    ∀ (l : List LineAlignment) (n k : Nat),
      count_unchanged_from src dst l = n → k < n →
      ∃ s d, l.getD k (LineAlignment.SourceOnly 0) = LineAlignment.Both s d ∧
        normalize_line_for_comparison (src.getD s []) =
          normalize_line_for_comparison (dst.getD d []) := by
  intro l
  induction l with
  | nil =>
    intro n k hc hk
    simp only [count_unchanged_from] at hc
    omega
  | cons a rest ih =>
    intro n k hc hk
    match a, hc with
    | LineAlignment.Both s d, hc =>
      simp only [count_unchanged_from] at hc
      split at hc
      · next hnorm =>
        cases k with
        | zero => exact ⟨s, d, rfl, hnorm⟩
        | succ k' =>
          obtain ⟨s', d', h1, h2⟩ := ih (n - 1) k' (by omega) (by omega)
          refine ⟨s', d', ?_, h2⟩
          simpa [List.getD_cons_succ] using h1
      · omega
    | LineAlignment.SourceOnly s, hc =>
      simp only [count_unchanged_from] at hc
      omega
    | LineAlignment.DestOnly d, hc =>
      simp only [count_unchanged_from] at hc
      omega

/-- The op right after the counted run (when it exists) has changes. -/
theorem count_unchanged_break {src dst : List (List Char)} :
    ∀ (l : List LineAlignment) (n : Nat),
      count_unchanged_from src dst l = n → n < l.length →
      has_changes src dst (l.getD n (LineAlignment.SourceOnly 0)) = true := by
  intro l
  induction l with
  | nil =>
    intro n hc hlt
    simp at hlt
  | cons a rest ih =>
    intro n hc hlt
    match a, hc with
    | LineAlignment.Both s d, hc =>
      simp only [count_unchanged_from] at hc
      split at hc
      · next hnorm =>
        cases n with
        | zero => omega
        | succ n' =>
          have hlt' : n' < rest.length := by
            simp only [List.length_cons] at hlt
            omega
          have := ih n' (by omega) hlt'
          simpa [List.getD_cons_succ] using this
      · next hnorm =>
        cases n with
        | zero =>
          simp only [List.getD_cons_zero, has_changes]
          exact decide_eq_true hnorm
        | succ n' => omega
    | LineAlignment.SourceOnly s, hc =>
      cases n with
      | zero => simp [has_changes]
      | succ n' => simp only [count_unchanged_from] at hc; omega
    | LineAlignment.DestOnly d, hc =>
      cases n with
      | zero => simp [has_changes]
      | succ n' => simp only [count_unchanged_from] at hc; omega

/-- When both sides wrap to equally many rows, `add_unchanged_line` appends
them without padding. -/
theorem add_unchanged_line_single {s d : Nat} {src dst : List (List Char)}
    {tw gw mld : Nat} {sv dv ls ld : List Row}
    (hs : create_highlighted_lines (s + 1) [(src.getD s [], false)] tw gw mld = some ls)
    (hd : create_highlighted_lines (d + 1) [(dst.getD d [], false)] tw gw mld = some ld)
    (hlen : ls.length = ld.length) :
    add_unchanged_line s d src dst tw gw mld sv dv = some (sv ++ ls, dv ++ ld) := by
  unfold add_unchanged_line
  dsimp only
  rw [hs, Option.some_bind, hd, Option.some_bind]
  rw [if_neg (by omega), if_neg (by omega)]

/-- A context fold over positions that are all one-row unchanged `Both` ops
appends one row per position on each side. -/
theorem fold_ctx_emit {aligned : List LineAlignment} {src dst : List (List Char)}
    {tw gw mld : Nat} :
    ∀ (ks : List Nat),
      (∀ k ∈ ks, ∃ s d ls ld,
        aligned.getD k (LineAlignment.SourceOnly 0) = LineAlignment.Both s d ∧
        create_highlighted_lines (s + 1) [(src.getD s [], false)] tw gw mld = some ls ∧
        ls.length = 1 ∧
        create_highlighted_lines (d + 1) [(dst.getD d [], false)] tw gw mld = some ld ∧
        ld.length = 1) →
      ∀ (p : List Row × List Row),
      ∃ es ed, ks.foldlM (fun (p : List Row × List Row) k =>
          match aligned.getD k (LineAlignment.SourceOnly 0) with
          | LineAlignment.Both s d => add_unchanged_line s d src dst tw gw mld p.1 p.2
          | _ => some p) p = some (p.1 ++ es, p.2 ++ ed) ∧
        es.length = ks.length ∧ ed.length = ks.length := by
  intro ks
  induction ks with
  | nil =>
    intro _ p
    exact ⟨[], [], by simp [List.foldlM_nil], rfl, rfl⟩
  | cons k ks ih =>
    intro hks p
    obtain ⟨s, d, ls, ld, hsd, hcs, hls, hcd, hld⟩ := hks k (List.mem_cons_self k ks)
    obtain ⟨es', ed', hfold, he', hd'⟩ :=
      ih (fun k' hk' => hks k' (List.mem_cons_of_mem k hk')) (p.1 ++ ls, p.2 ++ ld)
    refine ⟨ls ++ es', ld ++ ed', ?_,
      by simp only [List.length_append, List.length_cons, hls, he']; omega,
      by simp only [List.length_append, List.length_cons, hld, hd']; omega⟩
    rw [List.foldlM_cons, hsd]
    dsimp only
    rw [add_unchanged_line_single hcs hcd (by omega)]
    rw [Option.bind_eq_bind, Option.some_bind]
    dsimp only at hfold
    rw [hfold]
    simp [List.append_assoc]

/-- C6: with folding enabled and `context_lines = CONTEXT_LINES = 3`, a
maximal run of exactly 10 unchanged matched ops (each rendering one physical
row), immediately preceded and followed by an op with changes, is emitted as
exactly 3 + 1 + 3 = 7 rows on each side, the row at offset 3 being the fold
marker with `hidden_count = 4`, identical on both columns, and the loop
resumes after the run. -/
theorem fold_run_of_ten_emits_seven_rows
    (aligned : List LineAlignment) (source_lines dest_lines : List (List Char))
    (tw gw mld i : Nat) (sv dv : List Row)
    (hrun : count_unchanged_from source_lines dest_lines (aligned.drop i) = 10)
    (hafter : i + 10 < aligned.length)
    (hbefore : 0 < i)
    (hcb : has_changes source_lines dest_lines
      (aligned.getD (i - 1) (LineAlignment.SourceOnly 0)) = true)
    (hone : ∀ k, k < 10 →
      one_row_both source_lines dest_lines tw gw mld (aligned.get? (i + k)) = true) :
    (process_one aligned source_lines dest_lines tw gw mld true CONTEXT_LINES i sv dv).map
        (fun r => r.1) = some (i + 10) ∧
    (process_one aligned source_lines dest_lines tw gw mld true CONTEXT_LINES i sv dv).map
        (fun r => r.2.1.length) = some (sv.length + 7) ∧
    (process_one aligned source_lines dest_lines tw gw mld true CONTEXT_LINES i sv dv).map
        (fun r => r.2.2.length) = some (dv.length + 7) ∧
    (process_one aligned source_lines dest_lines tw gw mld true CONTEXT_LINES i sv dv).bind
        (fun r => r.2.1.get? (sv.length + 3)) = some (create_fold_indicator 4 tw gw) ∧
    (process_one aligned source_lines dest_lines tw gw mld true CONTEXT_LINES i sv dv).bind
        (fun r => r.2.2.get? (dv.length + 3)) = some (create_fold_indicator 4 tw gw) := by
  -- each run position is a one-row unchanged Both
  have hks : ∀ k, k < 10 → ∃ s d ls ld,
      aligned.getD (i + k) (LineAlignment.SourceOnly 0) = LineAlignment.Both s d ∧
      create_highlighted_lines (s + 1) [(source_lines.getD s [], false)] tw gw mld = some ls ∧
      ls.length = 1 ∧
      create_highlighted_lines (d + 1) [(dest_lines.getD d [], false)] tw gw mld = some ld ∧
      ld.length = 1 := by
    intro k hk
    obtain ⟨s, d, hsd, hnorm⟩ := by
      have := count_unchanged_elts (aligned.drop i) 10 k hrun hk
      rwa [getD_drop_align] at this
    have hlt : i + k < aligned.length := by omega
    have hget : aligned.get? (i + k) = some (LineAlignment.Both s d) := by
      rw [List.get?_eq_getElem?, List.getElem?_eq_getElem hlt]
      rw [show aligned[i + k] = aligned.getD (i + k) (LineAlignment.SourceOnly 0) by
        simp [List.getD_eq_getElem?_getD, List.getElem?_eq_getElem hlt]]
      rw [hsd]
    have hone' := hone k hk
    rw [hget] at hone'
    simp only [one_row_both, Bool.and_eq_true, beq_iff_eq] at hone'
    obtain ⟨h1, h2⟩ := hone'
    rw [Option.map_eq_some'] at h1 h2
    obtain ⟨ls, hls, hlen1⟩ := h1
    obtain ⟨ld, hld, hlen2⟩ := h2
    exact ⟨s, d, ls, ld, hsd, hls, hlen1, hld, hlen2⟩
  -- the op after the run has changes
  have hbreak : has_changes source_lines dest_lines
      (aligned.getD (i + 10) (LineAlignment.SourceOnly 0)) = true := by
    have := count_unchanged_break (aligned.drop i) 10 hrun
      (by rw [List.length_drop]; omega)
    rwa [getD_drop_align] at this
  have hA : (decide (i > 0) && has_changes source_lines dest_lines
      (aligned.getD (i - 1) (LineAlignment.SourceOnly 0))) = true := by
    rw [hcb, decide_eq_true hbefore]
    rfl
  have hB : (decide (i + 10 < aligned.length) && has_changes source_lines dest_lines
      (aligned.getD (i + 10) (LineAlignment.SourceOnly 0))) = true := by
    rw [hbreak, decide_eq_true hafter]
    rfl
  -- the fold branch fires with uc = 10, cb = ca = 3, hidden = 4
  have heval : process_one aligned source_lines dest_lines tw gw mld true CONTEXT_LINES i sv dv
      = emit_fold_run aligned source_lines dest_lines tw gw mld i 10 3 3 4 sv dv := by
    unfold process_one
    dsimp only
    rw [hrun, hA, hB]
    norm_num [CONTEXT_LINES]
  -- evaluate the emitted block
  obtain ⟨es1, ed1, hfold1, he1, hd1⟩ := fold_ctx_emit (List.range' i 3)
    (by
      intro k hk
      rw [List.mem_range'_1] at hk
      have : k = i + (k - i) := by omega
      rw [this]
      exact hks (k - i) (by omega)) (sv, dv)
  obtain ⟨es2, ed2, hfold2, he2, hd2⟩ := fold_ctx_emit (List.range' (i + 10 - 3) 3)
    (by
      intro k hk
      rw [List.mem_range'_1] at hk
      have : k = i + (k - i) := by omega
      rw [this]
      exact hks (k - i) (by omega))
    (sv ++ es1 ++ [create_fold_indicator 4 tw gw],
     dv ++ ed1 ++ [create_fold_indicator 4 tw gw])
  rw [List.length_range'] at he1 hd1 he2 hd2
  have hemit : emit_fold_run aligned source_lines dest_lines tw gw mld i 10 3 3 4 sv dv =
      some (i + 10, sv ++ es1 ++ [create_fold_indicator 4 tw gw] ++ es2,
        dv ++ ed1 ++ [create_fold_indicator 4 tw gw] ++ ed2) := by
    unfold emit_fold_run
    rw [hfold1, Option.some_bind]
    dsimp only
    rw [if_pos (by norm_num)]
    rw [hfold2, Option.some_bind]
  rw [heval, hemit]
  have hget1 : (sv ++ es1 ++ [create_fold_indicator 4 tw gw] ++ es2).get? (sv.length + 3) =
      some (create_fold_indicator 4 tw gw) := by
    rw [List.get?_eq_getElem?]
    rw [List.append_assoc, List.append_assoc]
    rw [List.getElem?_append_right (by omega : sv.length ≤ sv.length + 3)]
    have h3 : sv.length + 3 - sv.length = 3 := by omega
    rw [h3]
    rw [List.getElem?_append_right (by omega : es1.length ≤ 3)]
    rw [he1]
    simp
  have hget2 : (dv ++ ed1 ++ [create_fold_indicator 4 tw gw] ++ ed2).get? (dv.length + 3) =
      some (create_fold_indicator 4 tw gw) := by
    rw [List.get?_eq_getElem?]
    rw [List.append_assoc, List.append_assoc]
    rw [List.getElem?_append_right (by omega : dv.length ≤ dv.length + 3)]
    have h3 : dv.length + 3 - dv.length = 3 := by omega
    rw [h3]
    rw [List.getElem?_append_right (by omega : ed1.length ≤ 3)]
    rw [hd1]
    simp
  refine ⟨rfl, ?_, ?_, ?_, ?_⟩
  · simp [he1, he2]
  · simp [hd1, hd2]
  · simp only [Option.some_bind]
    exact hget1
  · simp only [Option.some_bind]
    exact hget2

/-- Witness for the fold-arithmetic theorem: an alignment of 12 matched ops
whose middle 10 lines are identical one-row lines, flanked by two modified
pairs. -/
theorem fold_run_of_ten_emits_seven_rows_witness :
    (process_one ((List.range 12).map (fun k => LineAlignment.Both k k))
        ["AAA".toList, "l0".toList, "l1".toList, "l2".toList, "l3".toList, "l4".toList,
          "l5".toList, "l6".toList, "l7".toList, "l8".toList, "l9".toList, "BBB".toList]
        ["CCC".toList, "l0".toList, "l1".toList, "l2".toList, "l3".toList, "l4".toList,
          "l5".toList, "l6".toList, "l7".toList, "l8".toList, "l9".toList, "DDD".toList]
        20 3 2 true CONTEXT_LINES 1 [] []).map (fun r => r.1) = some 11 :=
  (fold_run_of_ten_emits_seven_rows _ _ _ 20 3 2 1 [] []
    (by decide) (by decide) (by decide) (by decide) (by decide)).1

/-! ## C1: index coverage of the alignment -/

/-- C1 counterexample: on `["x", ""]` vs `["y", ""]` the trailing-blank
reclassification (STEP 6) turns the forced `Both 1 1` into `DestOnly 1`,
dropping source index 1, and the STEP 7 sort places the `DestOnly` entries
out of order — so neither side's index list equals `0..len`. -/
theorem alignment_coverage_counterexample :
    align_lines ["x".toList, [] ] ["y".toList, [] ] =
      [LineAlignment.SourceOnly 0, LineAlignment.DestOnly 1, LineAlignment.DestOnly 0] ∧
    src_indices (align_lines ["x".toList, [] ] ["y".toList, [] ]) = [0] ∧
    src_indices (align_lines ["x".toList, [] ] ["y".toList, [] ]) ≠ List.range 2 ∧
    dst_indices (align_lines ["x".toList, [] ] ["y".toList, [] ]) = [1, 0] ∧
    dst_indices (align_lines ["x".toList, [] ] ["y".toList, [] ]) ≠ List.range 2 := by
  refine ⟨by decide, by decide, by decide, by decide, by decide⟩

theorem find_first_idx_some {p : LineAlignment → Bool} :
    ∀ {l : List LineAlignment} {j : Nat}, find_first_idx p l = some j →
      j < l.length ∧ ∃ e, l.get? j = some e ∧ p e = true := by
  intro l
  induction l with
  | nil => intro j h; simp [find_first_idx] at h
  | cons a l ih =>
    intro j h
    simp only [find_first_idx] at h
    split at h
    · next hp =>
      injection h with he
      subst he
      exact ⟨by simp, a, rfl, hp⟩
    · rw [Option.map_eq_some'] at h
      obtain ⟨j', hj', he⟩ := h
      subst he
      obtain ⟨hlt, e, hget, hpe⟩ := ih hj'
      refine ⟨by simp only [List.length_cons]; omega, e, ?_, hpe⟩
      simpa [List.get?_cons_succ] using hget

/-- The backtrack's source-index and destination-index traces are sublists
of the reversed ranges: they are strictly decreasing and in bounds. -/
theorem backtrack_idxs_sublist (rs ds : List (Nat × List Char)) (tab : List (List Nat)) :
    ∀ fuel i j,
      List.Sublist (rem_src_idxs (backtrack_go rs ds tab fuel i j)) (List.range i).reverse ∧
      List.Sublist (rem_dst_idxs (backtrack_go rs ds tab fuel i j)) (List.range j).reverse := by
  have hrev : ∀ m : Nat, 0 < m →
      (List.range m).reverse = (m - 1) :: (List.range (m - 1)).reverse := by
    intro m hm
    conv_lhs => rw [show m = (m - 1) + 1 by omega]
    rw [List.range_succ, List.reverse_append]
    simp
  intro fuel
  induction fuel with
  | zero =>
    intro i j
    simp [backtrack_go, rem_src_idxs, rem_dst_idxs]
  | succ n ih =>
    intro i j
    have stepB : ∀ i' j' : Nat, 0 < i' → 0 < j' →
        List.Sublist (rem_src_idxs (RemAlign.both (i' - 1) (j' - 1) ::
            backtrack_go rs ds tab n (i' - 1) (j' - 1))) (List.range i').reverse ∧
        List.Sublist (rem_dst_idxs (RemAlign.both (i' - 1) (j' - 1) ::
            backtrack_go rs ds tab n (i' - 1) (j' - 1))) (List.range j').reverse := by
      intro i' j' hi hj
      obtain ⟨ha, hb⟩ := ih (i' - 1) (j' - 1)
      constructor
      · simp only [rem_src_idxs, List.filterMap_cons]
        rw [hrev i' hi]
        exact List.Sublist.cons₂ _ ha
      · simp only [rem_dst_idxs, List.filterMap_cons]
        rw [hrev j' hj]
        exact List.Sublist.cons₂ _ hb
    have stepS : ∀ i' j' : Nat, 0 < i' →
        List.Sublist (rem_src_idxs (RemAlign.src (i' - 1) ::
            backtrack_go rs ds tab n (i' - 1) j')) (List.range i').reverse ∧
        List.Sublist (rem_dst_idxs (RemAlign.src (i' - 1) ::
            backtrack_go rs ds tab n (i' - 1) j')) (List.range j').reverse := by
      intro i' j' hi
      obtain ⟨ha, hb⟩ := ih (i' - 1) j'
      constructor
      · simp only [rem_src_idxs, List.filterMap_cons]
        rw [hrev i' hi]
        exact List.Sublist.cons₂ _ ha
      · simp only [rem_dst_idxs, List.filterMap_cons]
        exact hb
    have stepD : ∀ i' j' : Nat, 0 < j' →
        List.Sublist (rem_src_idxs (RemAlign.dst (j' - 1) ::
            backtrack_go rs ds tab n i' (j' - 1))) (List.range i').reverse ∧
        List.Sublist (rem_dst_idxs (RemAlign.dst (j' - 1) ::
            backtrack_go rs ds tab n i' (j' - 1))) (List.range j').reverse := by
      intro i' j' hj
      obtain ⟨ha, hb⟩ := ih i' (j' - 1)
      constructor
      · simp only [rem_src_idxs, List.filterMap_cons]
        exact ha
      · simp only [rem_dst_idxs, List.filterMap_cons]
        rw [hrev j' hj]
        exact List.Sublist.cons₂ _ hb
    simp only [backtrack_go]
    by_cases h1 : i > 0 ∧ j > 0
    · rw [if_pos h1]
      by_cases h2 : normalize_line_for_comparison (rs.getD (i - 1) (0, [])).2 =
          normalize_line_for_comparison (ds.getD (j - 1) (0, [])).2
      · rw [if_pos h2]
        by_cases h3 : (if normalize_line_for_comparison (rs.getD (i - 1) (0, [])).2 = []
              then (rs.getD (i - 1) (0, [])).1 = (ds.getD (j - 1) (0, [])).1 else True) ∧
            dp_get tab i j = dp_get tab (i - 1) (j - 1) + 1
        · rw [if_pos h3]
          exact stepB i j h1.1 h1.2
        · rw [if_neg h3]
          by_cases h4 : dp_get tab (i - 1) j ≥ dp_get tab i (j - 1)
          · rw [if_pos h4]
            exact stepS i j h1.1
          · rw [if_neg h4]
            exact stepD i j h1.2
      · rw [if_neg h2]
        by_cases h3 : lines_are_similar (rs.getD (i - 1) (0, [])).2 (ds.getD (j - 1) (0, [])).2 ∧
            dp_get tab i j = dp_get tab (i - 1) (j - 1) + 1
        · rw [if_pos h3]
          exact stepB i j h1.1 h1.2
        · rw [if_neg h3]
          by_cases h4 : dp_get tab (i - 1) j > dp_get tab i (j - 1)
          · rw [if_pos h4]
            exact stepS i j h1.1
          · rw [if_neg h4]
            by_cases h5 : dp_get tab i (j - 1) > dp_get tab (i - 1) j
            · rw [if_pos h5]
              exact stepD i j h1.2
            · rw [if_neg h5]
              exact stepS i j h1.1
    · rw [if_neg h1]
      by_cases h2 : i > 0
      · rw [if_pos h2]
        exact stepS i j h2
      · rw [if_neg h2]
        by_cases h3 : j > 0
        · rw [if_pos h3]
          exact stepD i j h3
        · rw [if_neg h3]
          simp [rem_src_idxs, rem_dst_idxs]

theorem src_indices_append (l1 l2 : List LineAlignment) :
    src_indices (l1 ++ l2) = src_indices l1 ++ src_indices l2 :=
  List.filterMap_append _ _ _

theorem dst_indices_append (l1 l2 : List LineAlignment) :
    dst_indices (l1 ++ l2) = dst_indices l1 ++ dst_indices l2 :=
  List.filterMap_append _ _ _

theorem filterMap_set_eq {f : LineAlignment → Option Nat} :
    ∀ (l : List LineAlignment) (n : Nat) (e e' : LineAlignment), l.get? n = some e →
      f e' = f e → (l.set n e').filterMap f = l.filterMap f := by
  intro l
  induction l with
  | nil => intro n e e' h _; simp at h
  | cons a tl ih =>
    intro n e e' h hf
    cases n with
    | zero =>
      simp only [List.get?_cons_zero] at h
      injection h with he
      subst he
      simp only [List.set_cons_zero, List.filterMap_cons, hf]
    | succ n' =>
      simp only [List.get?_cons_succ] at h
      simp only [List.set_cons_succ, List.filterMap_cons]
      cases hfa : f a with
      | none => exact ih n' e e' h hf
      | some b => rw [ih n' e e' h hf]

theorem filterMap_set_sublist {f : LineAlignment → Option Nat} :
    ∀ (l : List LineAlignment) (n : Nat) (e' : LineAlignment), f e' = none →
      List.Sublist ((l.set n e').filterMap f) (l.filterMap f) := by
  intro l
  induction l with
  | nil => intro n e' _; simp
  | cons a tl ih =>
    intro n e' hf
    cases n with
    | zero =>
      simp only [List.set_cons_zero, List.filterMap_cons, hf]
      cases hfa : f a with
      | none => exact List.Sublist.refl _
      | some b => exact List.sublist_cons_self b _
    | succ n' =>
      simp only [List.set_cons_succ, List.filterMap_cons]
      cases hfa : f a with
      | none => exact ih n' e' hf
      | some b => exact List.Sublist.cons₂ b (ih n' e' hf)

/-- One STEP 6 conversion only keeps or deletes index entries: the extracted
index lists of the output are sublists of the input's (the converted entry
keeps its own side's index and drops the other side's). -/
theorem step6_convert_idxs (source dest : List (List Char)) (l : List LineAlignment) (i : Nat) :
    List.Sublist (src_indices (step6_convert source dest l i)) (src_indices l) ∧
    List.Sublist (dst_indices (step6_convert source dest l i)) (dst_indices l) := by
  unfold step6_convert
  split
  · -- SourceOnly at position i
    next src_idx hget =>
    split
    · next jj hfind =>
      obtain ⟨hlt, e, hgj, hpe⟩ := find_first_idx_some hfind
      match e, hgj, hpe with
      | LineAlignment.Both s' d', hgj, hpe =>
        rw [Bool.and_eq_true] at hpe
        have hs' : s' = src_idx + 1 := by
          have := hpe.1
          rwa [beq_iff_eq] at this
        constructor
        · unfold src_indices
          rw [filterMap_set_eq l jj (LineAlignment.Both s' d')
              (LineAlignment.SourceOnly (src_idx + 1)) hgj (by rw [hs'])]
        · exact filterMap_set_sublist l jj (LineAlignment.SourceOnly (src_idx + 1)) rfl
      | LineAlignment.SourceOnly _, hgj, hpe => exact absurd hpe (by simp)
      | LineAlignment.DestOnly _, hgj, hpe => exact absurd hpe (by simp)
    · exact ⟨List.Sublist.refl _, List.Sublist.refl _⟩
  · -- DestOnly at position i
    next dest_idx hget =>
    split
    · next jj hfind =>
      obtain ⟨hlt, e, hgj, hpe⟩ := find_first_idx_some hfind
      match e, hgj, hpe with
      | LineAlignment.Both s' d', hgj, hpe =>
        rw [Bool.and_eq_true] at hpe
        have hd' : d' = dest_idx + 1 := by
          have := hpe.1
          rwa [beq_iff_eq] at this
        constructor
        · exact filterMap_set_sublist l jj (LineAlignment.DestOnly (dest_idx + 1)) rfl
        · unfold dst_indices
          rw [filterMap_set_eq l jj (LineAlignment.Both s' d')
              (LineAlignment.DestOnly (dest_idx + 1)) hgj (by rw [hd'])]
      | LineAlignment.SourceOnly _, hgj, hpe => exact absurd hpe (by simp)
      | LineAlignment.DestOnly _, hgj, hpe => exact absurd hpe (by simp)
    · exact ⟨List.Sublist.refl _, List.Sublist.refl _⟩
  · exact ⟨List.Sublist.refl _, List.Sublist.refl _⟩

theorem step6_idxs (source dest : List (List Char)) (l : List LineAlignment) :
    List.Sublist (src_indices (step6 source dest l)) (src_indices l) ∧
    List.Sublist (dst_indices (step6 source dest l)) (dst_indices l) := by
  unfold step6
  generalize List.range l.length = r
  induction r generalizing l with
  | nil => exact ⟨List.Sublist.refl _, List.Sublist.refl _⟩
  | cons k r ihr =>
    rw [List.foldl_cons]
    obtain ⟨h1, h2⟩ := ihr (step6_convert source dest l k)
    obtain ⟨g1, g2⟩ := step6_convert_idxs source dest l k
    exact ⟨h1.trans g1, h2.trans g2⟩

theorem filterMap_if_sublist {α : Type} (P : α → Prop) [DecidablePred P] :
    ∀ l : List α, List.Sublist (l.filterMap (fun x => if P x then some x else none)) l := by
  intro l
  induction l with
  | nil => simp
  | cons a tl ih =>
    by_cases hP : P a
    · simp only [List.filterMap_cons, if_pos hP]
      exact List.Sublist.cons₂ a ih
    · simp only [List.filterMap_cons, if_neg hP]
      exact ih.trans (List.sublist_cons_self a tl)

theorem forced_fst_sublist_range (source dest : List (List Char)) :
    List.Sublist ((forced_matches source dest).map Prod.fst)
      (List.range (min source.length dest.length)) := by
  unfold forced_matches
  rw [List.map_filterMap]
  have he : (fun idx => (if normalize_line_for_comparison (source.getD idx []) = [] ∧
        normalize_line_for_comparison (dest.getD idx []) = [] then some (idx, idx)
      else none).map Prod.fst) =
      (fun idx => if normalize_line_for_comparison (source.getD idx []) = [] ∧
        normalize_line_for_comparison (dest.getD idx []) = [] then some idx else none) := by
    funext idx
    split <;> rfl
  rw [he]
  exact filterMap_if_sublist _ _

theorem forced_snd_sublist_range (source dest : List (List Char)) :
    List.Sublist ((forced_matches source dest).map Prod.snd)
      (List.range (min source.length dest.length)) := by
  unfold forced_matches
  rw [List.map_filterMap]
  have he : (fun idx => (if normalize_line_for_comparison (source.getD idx []) = [] ∧
        normalize_line_for_comparison (dest.getD idx []) = [] then some (idx, idx)
      else none).map Prod.snd) =
      (fun idx => if normalize_line_for_comparison (source.getD idx []) = [] ∧
        normalize_line_for_comparison (dest.getD idx []) = [] then some idx else none) := by
    funext idx
    split <;> rfl
  rw [he]
  exact filterMap_if_sublist _ _

theorem src_indices_forced_map (ps : List (Nat × Nat)) :
    src_indices (ps.map (fun p => LineAlignment.Both p.1 p.2)) = ps.map Prod.fst := by
  unfold src_indices
  rw [List.filterMap_map]
  exact List.filterMap_eq_map _ ▸ rfl

theorem dst_indices_forced_map (ps : List (Nat × Nat)) :
    dst_indices (ps.map (fun p => LineAlignment.Both p.1 p.2)) = ps.map Prod.snd := by
  unfold dst_indices
  rw [List.filterMap_map]
  exact List.filterMap_eq_map _ ▸ rfl

theorem src_indices_rem_map (rs ds : List (Nat × List Char)) (rem : List RemAlign) :
    src_indices (rem.map (rem_to_orig rs ds)) =
      (rem_src_idxs rem).map (fun ri => (rs.getD ri (0, [])).1) := by
  unfold src_indices rem_src_idxs
  rw [List.filterMap_map, List.map_filterMap]
  congr 1
  funext re
  cases re <;> rfl

theorem dst_indices_rem_map (rs ds : List (Nat × List Char)) (rem : List RemAlign) :
    dst_indices (rem.map (rem_to_orig rs ds)) =
      (rem_dst_idxs rem).map (fun rj => (ds.getD rj (0, [])).1) := by
  unfold dst_indices rem_dst_idxs
  rw [List.filterMap_map, List.map_filterMap]
  congr 1
  funext re
  cases re <;> rfl

theorem src_indices_srconly_map (ps : List (Nat × List Char)) :
    src_indices (ps.map (fun p => LineAlignment.SourceOnly p.1)) = ps.map Prod.fst := by
  unfold src_indices
  rw [List.filterMap_map]
  exact List.filterMap_eq_map _ ▸ rfl

theorem src_indices_dstonly_map (ps : List (Nat × List Char)) :
    src_indices (ps.map (fun p => LineAlignment.DestOnly p.1)) = [] := by
  unfold src_indices
  rw [List.filterMap_map]
  simp [Function.comp]

theorem dst_indices_dstonly_map (ps : List (Nat × List Char)) :
    dst_indices (ps.map (fun p => LineAlignment.DestOnly p.1)) = ps.map Prod.fst := by
  unfold dst_indices
  rw [List.filterMap_map]
  exact List.filterMap_eq_map _ ▸ rfl

theorem dst_indices_srconly_map (ps : List (Nat × List Char)) :
    dst_indices (ps.map (fun p => LineAlignment.SourceOnly p.1)) = [] := by
  unfold dst_indices
  rw [List.filterMap_map]
  simp [Function.comp]

theorem getD_fst_inj {rs : List (Nat × List Char)} (hn : (rs.map Prod.fst).Nodup)
    {x y : Nat} (hx : x < rs.length) (hy : y < rs.length)
    (hxy : (rs.getD x (0, [])).1 = (rs.getD y (0, [])).1) : x = y := by
  have e1 : rs.getD x (0, []) = rs[x] := by
    simp [List.getD_eq_getElem?_getD, List.getElem?_eq_getElem hx]
  have e2 : rs.getD y (0, []) = rs[y] := by
    simp [List.getD_eq_getElem?_getD, List.getElem?_eq_getElem hy]
  have hx' : x < (rs.map Prod.fst).length := by simpa using hx
  have hy' : y < (rs.map Prod.fst).length := by simpa using hy
  have hg : (rs.map Prod.fst).get ⟨x, hx'⟩ = (rs.map Prod.fst).get ⟨y, hy'⟩ := by
    simp only [List.get_eq_getElem, List.getElem_map]
    rw [← e1, ← e2]
    exact hxy
  have := (List.Nodup.get_inj_iff hn).mp hg
  simpa using this

theorem remaining_map_fst_nodup (lines : List (List Char)) (used : List Nat) :
    ((lines.enum.filter (fun q => q.1 ∉ used)).map Prod.fst).Nodup := by
  have hsub : List.Sublist ((lines.enum.filter (fun q => q.1 ∉ used)).map Prod.fst)
      (lines.enum.map Prod.fst) :=
    (List.filter_sublist lines.enum).map Prod.fst
  rw [List.enum_map_fst] at hsub
  exact (List.nodup_range _).sublist hsub

theorem rem_src_idxs_reverse (l : List RemAlign) :
    rem_src_idxs l.reverse = (rem_src_idxs l).reverse :=
  List.filterMap_reverse _ _

theorem rem_dst_idxs_reverse (l : List RemAlign) :
    rem_dst_idxs l.reverse = (rem_dst_idxs l).reverse :=
  List.filterMap_reverse _ _

/-- The backtrack source-index trace (after the reverse) is a sublist of
`0..rn`, hence Nodup and in bounds. -/
theorem lcs_rem_src_sublist (source dest : List (List Char)) :
    List.Sublist (rem_src_idxs (lcs_rem source dest))
      (List.range (remaining_src source dest).length) := by
  have h1 := (backtrack_idxs_sublist (remaining_src source dest)
    (remaining_dest source dest)
    (dp_table (align_match_cond (remaining_src source dest) (remaining_dest source dest))
      (remaining_src source dest).length (remaining_dest source dest).length)
    ((remaining_src source dest).length + (remaining_dest source dest).length)
    (remaining_src source dest).length (remaining_dest source dest).length).1
  have h2 := h1.reverse
  rw [List.reverse_reverse] at h2
  unfold lcs_rem
  rw [rem_src_idxs_reverse]
  exact h2

theorem lcs_rem_dst_sublist (source dest : List (List Char)) :
    List.Sublist (rem_dst_idxs (lcs_rem source dest))
      (List.range (remaining_dest source dest).length) := by
  have h1 := (backtrack_idxs_sublist (remaining_src source dest)
    (remaining_dest source dest)
    (dp_table (align_match_cond (remaining_src source dest) (remaining_dest source dest))
      (remaining_src source dest).length (remaining_dest source dest).length)
    ((remaining_src source dest).length + (remaining_dest source dest).length)
    (remaining_src source dest).length (remaining_dest source dest).length).2
  have h2 := h1.reverse
  rw [List.reverse_reverse] at h2
  unfold lcs_rem
  rw [rem_dst_idxs_reverse]
  exact h2

/-- The raw alignment (STEPS 1-5) has Nodup, in-bounds index lists on both
sides: the forced block and the remaining block are individually Nodup and
draw from disjoint index pools. -/
theorem align_raw_idxs (source dest : List (List Char)) :
    (src_indices (align_raw source dest)).Nodup ∧
    (∀ x ∈ src_indices (align_raw source dest), x < source.length) ∧
    (dst_indices (align_raw source dest)).Nodup ∧
    (∀ x ∈ dst_indices (align_raw source dest), x < dest.length) := by
  have hFsub := forced_fst_sublist_range source dest
  have hFsub2 := forced_snd_sublist_range source dest
  have hFnodup : ((forced_matches source dest).map Prod.fst).Nodup :=
    (List.nodup_range _).sublist hFsub
  have hFnodup2 : ((forced_matches source dest).map Prod.snd).Nodup :=
    (List.nodup_range _).sublist hFsub2
  have hFbound : ∀ x ∈ (forced_matches source dest).map Prod.fst, x < source.length := by
    intro x hx
    have hm := hFsub.subset hx
    rw [List.mem_range] at hm
    omega
  have hFbound2 : ∀ x ∈ (forced_matches source dest).map Prod.snd, x < dest.length := by
    intro x hx
    have hm := hFsub2.subset hx
    rw [List.mem_range] at hm
    omega
  have hrsN : ((remaining_src source dest).map Prod.fst).Nodup :=
    remaining_map_fst_nodup source _
  have hdsN : ((remaining_dest source dest).map Prod.fst).Nodup :=
    remaining_map_fst_nodup dest _
  unfold align_raw
  dsimp only
  split
  · -- the DP branch ran
    rw [src_indices_append, dst_indices_append, src_indices_forced_map,
      dst_indices_forced_map, src_indices_rem_map, dst_indices_rem_map]
    have hSsub := lcs_rem_src_sublist source dest
    have hDsub := lcs_rem_dst_sublist source dest
    have hSnodup : (rem_src_idxs (lcs_rem source dest)).Nodup :=
      (List.nodup_range _).sublist hSsub
    have hDnodup : (rem_dst_idxs (lcs_rem source dest)).Nodup :=
      (List.nodup_range _).sublist hDsub
    have hSbound : ∀ ri ∈ rem_src_idxs (lcs_rem source dest),
        ri < (remaining_src source dest).length := by
      intro ri h
      have hm := hSsub.subset h
      rwa [List.mem_range] at hm
    have hDbound : ∀ rj ∈ rem_dst_idxs (lcs_rem source dest),
        rj < (remaining_dest source dest).length := by
      intro rj h
      have hm := hDsub.subset h
      rwa [List.mem_range] at hm
    have hBnodup : ((rem_src_idxs (lcs_rem source dest)).map
        (fun ri => ((remaining_src source dest).getD ri (0, [])).1)).Nodup := by
      refine hSnodup.map_on ?_
      intro x hx y hy hxy
      exact getD_fst_inj hrsN (hSbound x hx) (hSbound y hy) hxy
    have hCnodup : ((rem_dst_idxs (lcs_rem source dest)).map
        (fun rj => ((remaining_dest source dest).getD rj (0, [])).1)).Nodup := by
      refine hDnodup.map_on ?_
      intro x hx y hy hxy
      exact getD_fst_inj hdsN (hDbound x hx) (hDbound y hy) hxy
    have hBbound : ∀ v ∈ (rem_src_idxs (lcs_rem source dest)).map
        (fun ri => ((remaining_src source dest).getD ri (0, [])).1), v < source.length := by
      intro v hv
      rw [List.mem_map] at hv
      obtain ⟨ri, hri, he⟩ := hv
      have hmem := getD_mem (hSbound ri hri) ((0 : Nat), ([] : List Char))
      obtain ⟨_, hlt, _⟩ := mem_remaining hmem
      rw [← he]
      exact hlt
    have hCbound : ∀ v ∈ (rem_dst_idxs (lcs_rem source dest)).map
        (fun rj => ((remaining_dest source dest).getD rj (0, [])).1), v < dest.length := by
      intro v hv
      rw [List.mem_map] at hv
      obtain ⟨rj, hrj, he⟩ := hv
      have hmem := getD_mem (hDbound rj hrj) ((0 : Nat), ([] : List Char))
      obtain ⟨_, hlt, _⟩ := mem_remaining hmem
      rw [← he]
      exact hlt
    have hdisjS : List.Disjoint ((forced_matches source dest).map Prod.fst)
        ((rem_src_idxs (lcs_rem source dest)).map
          (fun ri => ((remaining_src source dest).getD ri (0, [])).1)) := by
      intro a haF haB
      rw [List.mem_map] at haB
      obtain ⟨ri, hri, he⟩ := haB
      have hmem := getD_mem (hSbound ri hri) ((0 : Nat), ([] : List Char))
      obtain ⟨_, _, hnotin⟩ := mem_remaining hmem
      rw [← he] at haF
      exact hnotin haF
    have hdisjD : List.Disjoint ((forced_matches source dest).map Prod.snd)
        ((rem_dst_idxs (lcs_rem source dest)).map
          (fun rj => ((remaining_dest source dest).getD rj (0, [])).1)) := by
      intro a haF haB
      rw [List.mem_map] at haB
      obtain ⟨rj, hrj, he⟩ := haB
      have hmem := getD_mem (hDbound rj hrj) ((0 : Nat), ([] : List Char))
      obtain ⟨_, _, hnotin⟩ := mem_remaining hmem
      rw [← he] at haF
      exact hnotin haF
    refine ⟨hFnodup.append hBnodup hdisjS, ?_, hFnodup2.append hCnodup hdisjD, ?_⟩
    · intro x hx
      rw [List.mem_append] at hx
      rcases hx with hx | hx
      · exact hFbound x hx
      · exact hBbound x hx
    · intro x hx
      rw [List.mem_append] at hx
      rcases hx with hx | hx
      · exact hFbound2 x hx
      · exact hCbound x hx
  · -- the degenerate branch: everything remaining is one-sided
    rw [src_indices_append, src_indices_append, dst_indices_append, dst_indices_append,
      src_indices_forced_map, dst_indices_forced_map, src_indices_srconly_map,
      src_indices_dstonly_map, dst_indices_srconly_map, dst_indices_dstonly_map,
      List.append_nil, List.append_nil]
    have hrsB : ∀ x ∈ (remaining_src source dest).map Prod.fst, x < source.length := by
      intro x hx
      rw [List.mem_map] at hx
      obtain ⟨p, hp, he⟩ := hx
      obtain ⟨_, hlt, _⟩ := mem_remaining hp
      rw [← he]
      exact hlt
    have hdsB : ∀ x ∈ (remaining_dest source dest).map Prod.fst, x < dest.length := by
      intro x hx
      rw [List.mem_map] at hx
      obtain ⟨p, hp, he⟩ := hx
      obtain ⟨_, hlt, _⟩ := mem_remaining hp
      rw [← he]
      exact hlt
    have hdisjS : List.Disjoint ((forced_matches source dest).map Prod.fst)
        ((remaining_src source dest).map Prod.fst) := by
      intro a haF haB
      rw [List.mem_map] at haB
      obtain ⟨p, hp, he⟩ := haB
      obtain ⟨_, _, hnotin⟩ := mem_remaining hp
      rw [← he] at haF
      exact hnotin haF
    have hdisjD : List.Disjoint ((forced_matches source dest).map Prod.snd)
        ((remaining_dest source dest).map Prod.fst) := by
      intro a haF haB
      rw [List.mem_map] at haB
      obtain ⟨p, hp, he⟩ := haB
      obtain ⟨_, _, hnotin⟩ := mem_remaining hp
      rw [← he] at haF
      exact hnotin haF
    refine ⟨?_, ?_, ?_, ?_⟩
    · exact hFnodup.append hrsN hdisjS
    · intro x hx
      rw [List.mem_append] at hx
      rcases hx with hx | hx
      · exact hFbound x hx
      · exact hrsB x hx
    · exact hFnodup2.append hdsN hdisjD
    · intro x hx
      rw [List.mem_append] at hx
      rcases hx with hx | hx
      · exact hFbound2 x hx
      · exact hdsB x hx

theorem align_sort_key_src {e : LineAlignment} {x : Nat}
    (h : (match e with
      | LineAlignment.Both s _ => some s
      | LineAlignment.SourceOnly s => some s
      | LineAlignment.DestOnly _ => none) = some x) : align_sort_key e = x := by
  cases e with
  | Both s d => exact Option.some.inj h
  | SourceOnly s => exact Option.some.inj h
  | DestOnly d => exact Option.noConfusion h

/-- C1 (amended): the `src_idx` values of `Matched`/`SourceOnly` entries of
`align_lines`, in list order, are strictly increasing and all below
`len(source)` — distinct and ordered, but possibly with gaps, because the
trailing-blank reclassification (STEP 6) can drop an index, as
`alignment_coverage_counterexample` shows. The `dst_idx` values of
`Matched`/`DestOnly` entries are pairwise distinct and all below
`len(dest)`, but possibly out of order, because the STEP 7 sort keys
`DestOnly` entries with `usize::MAX`. -/
theorem alignment_index_discipline (source dest : List (List Char)) :
    List.Pairwise (· < ·) (src_indices (align_lines source dest)) ∧
    (∀ s ∈ src_indices (align_lines source dest), s < source.length) ∧
    (dst_indices (align_lines source dest)).Nodup ∧
    (∀ d ∈ dst_indices (align_lines source dest), d < dest.length) := by
  obtain ⟨hrawS, hrawSb, hrawD, hrawDb⟩ := align_raw_idxs source dest
  obtain ⟨h6S, h6D⟩ := step6_idxs source dest (align_raw source dest)
  have h6Snodup : (src_indices (step6 source dest (align_raw source dest))).Nodup :=
    hrawS.sublist h6S
  have h6Dnodup : (dst_indices (step6 source dest (align_raw source dest))).Nodup :=
    hrawD.sublist h6D
  have h6Sb : ∀ s ∈ src_indices (step6 source dest (align_raw source dest)),
      s < source.length := fun s hs => hrawSb s (h6S.subset hs)
  have h6Db : ∀ d ∈ dst_indices (step6 source dest (align_raw source dest)),
      d < dest.length := fun d hd => hrawDb d (h6D.subset hd)
  have hperm : List.Perm (List.insertionSort (fun a b => align_sort_key a ≤ align_sort_key b)
      (step6 source dest (align_raw source dest)))
      (step6 source dest (align_raw source dest)) :=
    List.perm_insertionSort _ _
  have hpermS : List.Perm (src_indices (align_lines source dest))
      (src_indices (step6 source dest (align_raw source dest))) := by
    unfold align_lines src_indices
    exact hperm.filterMap _
  have hpermD : List.Perm (dst_indices (align_lines source dest))
      (dst_indices (step6 source dest (align_raw source dest))) := by
    unfold align_lines dst_indices
    exact hperm.filterMap _
  have hnodupS : (src_indices (align_lines source dest)).Nodup :=
    hpermS.nodup_iff.mpr h6Snodup
  refine ⟨?_, ?_, hpermD.nodup_iff.mpr h6Dnodup, ?_⟩
  · haveI : IsTotal LineAlignment (fun a b => align_sort_key a ≤ align_sort_key b) :=
      ⟨fun a b => Nat.le_total _ _⟩
    haveI : IsTrans LineAlignment (fun a b => align_sort_key a ≤ align_sort_key b) :=
      ⟨fun a b c hab hbc => Nat.le_trans hab hbc⟩
    have hsorted : List.Sorted (fun a b => align_sort_key a ≤ align_sort_key b)
        (List.insertionSort (fun a b => align_sort_key a ≤ align_sort_key b)
          (step6 source dest (align_raw source dest))) :=
      List.sorted_insertionSort _ _
    have hle : (src_indices (align_lines source dest)).Pairwise (fun x y => x ≤ y) := by
      unfold align_lines src_indices
      refine List.pairwise_filterMap.mpr (List.Pairwise.imp ?_ hsorted)
      intro a b hab x hx y hy
      rw [Option.mem_def] at hx hy
      rw [← align_sort_key_src hx, ← align_sort_key_src hy]
      exact hab
    exact (hle.and hnodupS).imp (fun h => lt_of_le_of_ne h.1 h.2)
  · intro s hs
    exact h6Sb s (hpermS.mem_iff.mp hs)
  · intro d hd
    exact h6Db d (hpermD.mem_iff.mp hd)

end SyncManager

